import Mathlib

/-!
Intertwiners (src/app/tools/intertwiners.h)

A shallow embedding of the stroke-to-pixel strategies of the drawing tools
(`IntertwineNone`, `IntertwineFirstPoint`, `IntertwineAsLines`,
`IntertwineAsRectangles`, `IntertwineAsEllipses`, `IntertwineAsBezier`,
`IntertwineAsPixelPerfect`) and theorems about what each of them hands to
the pixel sinks.

Conventions of the embedding.

* C++ `int` coordinates are mathematical integers (`Int`).  Signed overflow is
  undefined behaviour in the source language, so no wrap-around is modelled;
  `/` on `int` is `Int.tdiv` (truncation toward zero).
* Loop counters that start at `0` and only increase are `Nat`.
* A strategy does not return a value: what it does is the sequence of calls it
  makes on the sinks and on the external drawing algorithms.  That sequence is
  the `List Call` returned by the embedded function, in call order.
* Retained members (`m_pts`, `m_lastPointPrinted`, `m_retainedTracePolicyLast`)
  are passed in and returned explicitly.
* `algo_line_continuous`, `Stroke::bounds`, `Rect::operator|=` and the
  floating-point `rotateRectangle` are not integer code of this header; the
  functions that use them take them as parameters.
-/

namespace app.tools

/-! ## Data model -/

/-- The type gfx::Point, a pair of signed integers; the default constructor gives (0, 0). -/
structure Point where
  x : Int
  y : Int
deriving DecidableEq, Repr

/-- The type gfx::Rect: origin (x, y), width w and height h; the default constructor gives
the empty rectangle (0, 0, 0, 0). -/
structure Rect where
  x : Int
  y : Int
  w : Int
  h : Int
deriving DecidableEq, Repr

/-- The class Stroke: an ordered sequence of points. -/
abbrev Stroke := List Point

/-- Element access stroke[c].  Every use below is guarded by the same bound
check as in the source, so the filler value for a bad index is never observed. -/
def Stroke.idx (s : Stroke) (c : Nat) : Point := s.getD c ⟨0, 0⟩

/-- The method Stroke::lastPoint(), called only on a non-empty stroke. -/
def Stroke.lastPoint (s : Stroke) : Point := s.getLastD ⟨0, 0⟩

/-- The method Stroke::addPoint(pt). -/
def Stroke.addPoint (s : Stroke) (pt : Point) : Stroke := s ++ [pt]

/-- The enum TracePolicy, as far as this header distinguishes its values. -/
inductive TracePolicy where
  | Accumulate
  | Last
deriving DecidableEq, Repr

/-- The double returned by getShapeAngle().  The integer code only ever
compares its absolute value with 0.001, so the embedding keeps the outcome of
that comparison: below (ABS(angle) < 0.001 holds), edge (neither < nor > holds),
above (ABS(angle) > 0.001 holds). -/
inductive ShapeAngle where
  | below
  | edge
  | above
deriving DecidableEq, Repr

/-- The test ABS(angle) < 0.001. -/
def ShapeAngle.absLt (a : ShapeAngle) : Bool :=
  match a with
  | .below => true
  | _ => false

/-- The test ABS(angle) > 0.001. -/
def ShapeAngle.absGt (a : ShapeAngle) : Bool :=
  match a with
  | .above => true
  | _ => false

/-- What the strategies read from ToolLoop and its controller. -/
structure ToolLoop where
  /-- Value of getController()->isTwoPoints() -/
  isTwoPoints : Bool
  /-- Value of getController()->isFreehand() -/
  isFreehand : Bool
  /-- Value of int(getModifiers()) & int(ToolLoopModifiers::kFromCenter), as a truth value -/
  fromCenter : Bool
  /-- Value of getTracePolicy() -/
  tracePolicy : TracePolicy
  /-- Value of getFilled() -/
  filled : Bool
  /-- Value of getBrush()->type() == BrushType::kImageBrushType -/
  imageBrush : Bool
  /-- Value of getController()->getShapeAngle() -/
  shapeAngle : ShapeAngle
deriving DecidableEq, Repr

/-- One call made by a strategy: on one of the three sinks (doPointshapePoint,
doPointshapeLine, doPointshapeHline) or on an external drawing algorithm that
is handed a sink as callback. -/
inductive Call where
  /-- Sink doPointshapePoint(x, y, loop) -/
  | doPointshapePoint (x y : Int)
  /-- Sink doPointshapeLine(x1, y1, x2, y2, loop) -/
  | doPointshapeLine (x1 y1 x2 y2 : Int)
  /-- Sink doPointshapeHline(x1, y, x2, loop) -/
  | doPointshapeHline (x1 y x2 : Int)
  /-- External algo_spline with the eight control coordinates, callback doPointshapeLine -/
  | algo_spline (x0 y0 x1 y1 x2 y2 x3 y3 : Int)
  /-- External doc::algorithm::polygon over the vertices, callback doPointshapeHline -/
  | polygon (vertices : Stroke)
  /-- External algo_ellipse(x1, y1, x2, y2), callback doPointshapePoint -/
  | algo_ellipse (x1 y1 x2 y2 : Int)
  /-- External algo_ellipsefill(x1, y1, x2, y2), callback doPointshapeHline -/
  | algo_ellipsefill (x1 y1 x2 y2 : Int)
  /-- External draw_rotated_ellipse(cx, cy, a, b, angle), callback doPointshapePoint -/
  | draw_rotated_ellipse (cx cy a b : Int)
  /-- External fill_rotated_ellipse(cx, cy, a, b, angle), callback doPointshapeHline -/
  | fill_rotated_ellipse (cx cy a b : Int)
deriving DecidableEq, Repr

/-- True for a call on the point sink. -/
def Call.isPoint : Call → Bool
  | .doPointshapePoint _ _ => true
  | _ => false

/-- True for a call on the line sink. -/
def Call.isLine : Call → Bool
  | .doPointshapeLine _ _ _ _ => true
  | _ => false

/-- True for a call on the horizontal-run sink. -/
def Call.isHline : Call → Bool
  | .doPointshapeHline _ _ _ => true
  | _ => false

/-- The calls a stateful strategy made, and the retained members afterwards.
The state is none when the call did not run to its end: a failed ASSERT or an
element access outside a vector stopped it after the recorded calls. -/
structure Outcome (σ : Type) where
  calls : List Call
  state : Option σ
deriving Repr

/-- The calls made and the retained members afterwards, for a strategy whose
calls always run to their end. -/
structure Step (σ : Type) where
  calls : List Call
  state : σ
deriving Repr

/-! ## Loops -/

/-- The loop for (c = c0; c < n; ++c) body(c): the calls of all iterations, in order. -/
def forEach (n : Nat) (body : Nat → List Call) (c : Nat) : List Call :=
  if c < n then body c ++ forEach n body (c + 1) else []
termination_by n - c

/-- The loop for (c = c0; c+1 < n; ++c) body(c): the calls of all iterations, in order. -/
def forPairs (n : Nat) (body : Nat → List Call) (c : Nat) : List Call :=
  if c + 1 < n then body c ++ forPairs n body (c + 1) else []
termination_by n - c

/-- The loop for (y = y0; y <= y2; y++) body(y): the calls of all iterations, in order. -/
def forRows (y2 : Int) (body : Int → List Call) (y : Int) : List Call :=
  if y ≤ y2 then body y ++ forRows y2 body (y + 1) else []
termination_by (y2 + 1 - y).toNat
decreasing_by omega

/-! ## addPointsWithoutDuplicatingLastOne (lines 13-20) -/

/-- The callback handed to algo_line_continuous: append (x, y) unless it
equals the last point of the stroke. -/
def addPointsWithoutDuplicatingLastOne (x y : Int) (stroke : Stroke) : Stroke :=
  let newPoint : Point := ⟨x, y⟩
  if stroke.isEmpty || Stroke.lastPoint stroke != newPoint then
    Stroke.addPoint stroke newPoint
  else
    stroke

/-- The callback addPointsWithoutDuplicatingLastOne called once for each point
of pts, in order, on the buffer m_pts. -/
def feedPoints (pts : List Point) (m_pts : Stroke) : Stroke :=
  pts.foldl (fun buf p => addPointsWithoutDuplicatingLastOne p.x p.y buf) m_pts

/-- One call algo_line_continuous(x0, y0, x1, y1, &m_pts,
addPointsWithoutDuplicatingLastOne): the external line walk calls the callback
once per point of its path, in order; the parameter gives that path. -/
def lineInto (algo_line_continuous : Int → Int → Int → Int → List Point)
    (x0 y0 x1 y1 : Int) (m_pts : Stroke) : Stroke :=
  feedPoints (algo_line_continuous x0 y0 x1 y1) m_pts

/-- The loop for (c = c0; c+1 < stroke.size(); ++c) algo_line_continuous(stroke[c],
stroke[c+1], &m_pts, addPointsWithoutDuplicatingLastOne) shared by
IntertwineAsLines and IntertwineAsPixelPerfect: the buffer m_pts afterwards. -/
def joinSegments (algo_line_continuous : Int → Int → Int → Int → List Point)
    (stroke : Stroke) (m_pts : Stroke) (c : Nat) : Stroke :=
  if c + 1 < stroke.length then
    joinSegments algo_line_continuous stroke
      (lineInto algo_line_continuous (Stroke.idx stroke c).x (Stroke.idx stroke c).y
        (Stroke.idx stroke (c + 1)).x (Stroke.idx stroke (c + 1)).y m_pts)
      (c + 1)
  else
    m_pts
termination_by stroke.length - c

/-! ## IntertwineNone (lines 22-33) -/

/-- IntertwineNone::joinStroke -/
def IntertwineNone.joinStroke (_loop : ToolLoop) (stroke : Stroke) : List Call :=
  forEach stroke.length
    (fun c => [Call.doPointshapePoint (Stroke.idx stroke c).x (Stroke.idx stroke c).y]) 0

/-- IntertwineNone::fillStroke -/
def IntertwineNone.fillStroke (loop : ToolLoop) (stroke : Stroke) : List Call :=
  IntertwineNone.joinStroke loop stroke

/-! ## IntertwineFirstPoint (lines 35-68) -/

/-- The range-for of IntertwineFirstPoint::joinStroke: mid.x += pt.x;
mid.y += pt.y; ++n, started from mid = (0, 0) and n = 0. -/
def IntertwineFirstPoint.accumulate (stroke : Stroke) : Point × Int :=
  stroke.foldl (fun acc pt => (⟨acc.1.x + pt.x, acc.1.y + pt.y⟩, acc.2 + 1)) (⟨0, 0⟩, 0)

/-- IntertwineFirstPoint::joinStroke -/
def IntertwineFirstPoint.joinStroke (loop : ToolLoop) (stroke : Stroke) : List Call :=
  if stroke.isEmpty then
    []
  else
    let mid : Point :=
      if loop.isTwoPoints && loop.fromCenter then
        let acc := IntertwineFirstPoint.accumulate stroke
        ⟨Int.tdiv acc.1.x acc.2, Int.tdiv acc.1.y acc.2⟩
      else
        Stroke.idx stroke 0
    [Call.doPointshapePoint mid.x mid.y]

/-- IntertwineFirstPoint::fillStroke -/
def IntertwineFirstPoint.fillStroke (loop : ToolLoop) (stroke : Stroke) : List Call :=
  IntertwineFirstPoint.joinStroke loop stroke

/-! ## IntertwineAsLines (lines 70-164) -/

/-- The members of IntertwineAsLines. -/
structure AsLinesState where
  m_lastPointPrinted : Stroke
  m_pts : Stroke
deriving DecidableEq, Repr

/-- IntertwineAsLines::saveLastPointAndDoPointshape -/
def IntertwineAsLines.saveLastPointAndDoPointshape (s : AsLinesState) (stroke : Stroke) :
    Outcome AsLinesState :=
  { calls := [Call.doPointshapePoint (Stroke.idx stroke 0).x (Stroke.idx stroke 0).y]
    state := some { s with m_lastPointPrinted := stroke } }

/-- The tail of IntertwineAsLines::joinStroke (lines 131-141): the closing line
of a filled shape drawn by a controller that is not freehand. -/
def IntertwineAsLines.closedShape (loop : ToolLoop) (stroke : Stroke) : List Call :=
  if loop.filled && !loop.isFreehand then
    [Call.doPointshapeLine (Stroke.idx stroke 0).x (Stroke.idx stroke 0).y
      (Stroke.idx stroke (stroke.length - 1)).x (Stroke.idx stroke (stroke.length - 1)).y]
  else
    []

/-- IntertwineAsLines::joinStroke.  In the multi-point branch the point stamps
come first; then ASSERT(!m_lastPointPrinted.empty()) and the accesses
m_lastPointPrinted[0] and m_pts[m_pts.size()-1] stop the call when the vector
they index is empty. -/
def IntertwineAsLines.joinStroke (algo_line_continuous : Int → Int → Int → Int → List Point)
    (loop : ToolLoop) (s : AsLinesState) (stroke : Stroke) : Outcome AsLinesState :=
  if stroke.length = 0 then
    { calls := [], state := some s }
  else if stroke.length = 1 then
    IntertwineAsLines.saveLastPointAndDoPointshape s stroke
  else if stroke.length ≥ 2 then
    if stroke.length = 2 ∧ Stroke.idx stroke 0 = Stroke.idx stroke 1 then
      if s.m_lastPointPrinted.isEmpty then
        IntertwineAsLines.saveLastPointAndDoPointshape s stroke
      else if Stroke.idx s.m_lastPointPrinted 0 ≠ Stroke.idx stroke 0 ∨
          loop.tracePolicy = TracePolicy.Last then
        IntertwineAsLines.saveLastPointAndDoPointshape s stroke
      else
        { calls := IntertwineAsLines.closedShape loop stroke
          state := some { s with m_pts := [] } }
    else
      let m_pts := joinSegments algo_line_continuous stroke s.m_pts 0
      let start := if loop.isFreehand then 1 else 0
      let stamps := forEach m_pts.length
        (fun c => [Call.doPointshapePoint (Stroke.idx m_pts c).x (Stroke.idx m_pts c).y]) start
      if s.m_lastPointPrinted.isEmpty then
        { calls := stamps, state := none }
      else if m_pts.isEmpty then
        { calls := stamps, state := none }
      else
        { calls := stamps ++ IntertwineAsLines.closedShape loop stroke
          state := some
            { m_lastPointPrinted :=
                s.m_lastPointPrinted.set 0 (Stroke.idx m_pts (m_pts.length - 1))
              m_pts := [] } }
  else
    { calls := IntertwineAsLines.closedShape loop stroke, state := some s }

/-- IntertwineAsLines::fillStroke -/
def IntertwineAsLines.fillStroke (algo_line_continuous : Int → Int → Int → Int → List Point)
    (loop : ToolLoop) (s : AsLinesState) (stroke : Stroke) : Outcome AsLinesState :=
  if stroke.length < 3 then
    IntertwineAsLines.joinStroke algo_line_continuous loop s stroke
  else
    let contour : Outcome AsLinesState :=
      if !loop.imageBrush then IntertwineAsLines.joinStroke algo_line_continuous loop s stroke
      else { calls := [], state := some s }
    match contour.state with
    | none => contour
    | some s1 => { calls := contour.calls ++ [Call.polygon stroke], state := some s1 }

/-! ## IntertwineAsRectangles (lines 166-278) -/

/-- The two statements if (x1 > x2) std::swap(x1, x2), for one coordinate. -/
def sortPair (a b : Int) : Int × Int := if a > b then (b, a) else (a, b)

/-- IntertwineAsRectangles::joinStroke.  The private rotateRectangle is
floating-point code; the parameter is rotateRectangle applied to the loop's
angle and returns its four corners. -/
def IntertwineAsRectangles.joinStroke (rotateRectangle : Int → Int → Int → Int → Stroke)
    (loop : ToolLoop) (stroke : Stroke) : List Call :=
  if stroke.length = 0 then
    []
  else if stroke.length = 1 then
    [Call.doPointshapePoint (Stroke.idx stroke 0).x (Stroke.idx stroke 0).y]
  else if stroke.length ≥ 2 then
    forPairs stroke.length (fun c =>
      let xs := sortPair (Stroke.idx stroke c).x (Stroke.idx stroke (c + 1)).x
      let ys := sortPair (Stroke.idx stroke c).y (Stroke.idx stroke (c + 1)).y
      let x1 := xs.1
      let x2 := xs.2
      let y1 := ys.1
      let y2 := ys.2
      if loop.shapeAngle.absLt then
        [Call.doPointshapeLine x1 y1 x2 y1, Call.doPointshapeLine x1 y2 x2 y2] ++
          forRows y2 (fun y => [Call.doPointshapePoint x1 y, Call.doPointshapePoint x2 y]) y1
      else
        let p := rotateRectangle x1 y1 x2 y2
        let n := p.length
        forPairs n (fun i =>
          [Call.doPointshapeLine (Stroke.idx p i).x (Stroke.idx p i).y
            (Stroke.idx p (i + 1)).x (Stroke.idx p (i + 1)).y]) 0 ++
          [Call.doPointshapeLine (Stroke.idx p (n - 1)).x (Stroke.idx p (n - 1)).y
            (Stroke.idx p 0).x (Stroke.idx p 0).y]) 0
  else
    []

/-- IntertwineAsRectangles::fillStroke -/
def IntertwineAsRectangles.fillStroke (rotateRectangle : Int → Int → Int → Int → Stroke)
    (loop : ToolLoop) (stroke : Stroke) : List Call :=
  if stroke.length < 2 then
    IntertwineAsRectangles.joinStroke rotateRectangle loop stroke
  else
    forPairs stroke.length (fun c =>
      let xs := sortPair (Stroke.idx stroke c).x (Stroke.idx stroke (c + 1)).x
      let ys := sortPair (Stroke.idx stroke c).y (Stroke.idx stroke (c + 1)).y
      let x1 := xs.1
      let x2 := xs.2
      let y1 := ys.1
      let y2 := ys.2
      if loop.shapeAngle.absLt then
        forRows y2 (fun y => [Call.doPointshapeLine x1 y x2 y]) y1
      else
        [Call.polygon (rotateRectangle x1 y1 x2 y2)]) 0

/-- The loop of IntertwineAsRectangles::getStrokeBounds (lines 248-254):
bounds |= rotateRectangle(stroke[c], stroke[c+1], angle).bounds(). -/
def IntertwineAsRectangles.unionLoop (bounds : Stroke → Rect) (union : Rect → Rect → Rect)
    (rotateRectangle : Int → Int → Int → Int → Stroke) (stroke : Stroke)
    (acc : Rect) (c : Nat) : Rect :=
  if c + 1 < stroke.length then
    IntertwineAsRectangles.unionLoop bounds union rotateRectangle stroke
      (union acc (bounds (rotateRectangle (Stroke.idx stroke c).x (Stroke.idx stroke c).y
        (Stroke.idx stroke (c + 1)).x (Stroke.idx stroke (c + 1)).y)))
      (c + 1)
  else
    acc
termination_by stroke.length - c

/-- IntertwineAsRectangles::getStrokeBounds.  Stroke::bounds and
Rect::operator|= are declared outside this header and are parameters. -/
def IntertwineAsRectangles.getStrokeBounds (bounds : Stroke → Rect)
    (union : Rect → Rect → Rect) (rotateRectangle : Int → Int → Int → Int → Stroke)
    (loop : ToolLoop) (stroke : Stroke) : Rect :=
  if loop.shapeAngle.absGt then
    if stroke.length ≥ 2 then
      IntertwineAsRectangles.unionLoop bounds union rotateRectangle stroke ⟨0, 0, 0, 0⟩ 0
    else
      ⟨0, 0, 0, 0⟩
  else
    bounds stroke

/-! ## IntertwineAsEllipses (lines 280-373) -/

/-- The macro ABS on int. -/
def ABS (a : Int) : Int := if a ≥ 0 then a else -a

/-- The per-pair body shared by IntertwineAsEllipses::joinStroke and fillStroke:
axisAligned and rotated are the two external algorithms the caller selects. -/
def IntertwineAsEllipses.pairLoop (loop : ToolLoop) (stroke : Stroke)
    (axisAligned : Int → Int → Int → Int → Call) (rotated : Int → Int → Int → Int → Call) :
    List Call :=
  forPairs stroke.length (fun c =>
    let xs := sortPair (Stroke.idx stroke c).x (Stroke.idx stroke (c + 1)).x
    let ys := sortPair (Stroke.idx stroke c).y (Stroke.idx stroke (c + 1)).y
    let x1 := xs.1
    let x2 := xs.2
    let y1 := ys.1
    let y2 := ys.2
    if loop.shapeAngle.absLt then
      [axisAligned x1 y1 x2 y2]
    else
      [rotated (Int.tdiv (x1 + x2) 2) (Int.tdiv (y1 + y2) 2)
        (Int.tdiv (ABS (x2 - x1)) 2) (Int.tdiv (ABS (y2 - y1)) 2)]) 0

/-- IntertwineAsEllipses::joinStroke -/
def IntertwineAsEllipses.joinStroke (loop : ToolLoop) (stroke : Stroke) : List Call :=
  if stroke.length = 0 then
    []
  else if stroke.length = 1 then
    [Call.doPointshapePoint (Stroke.idx stroke 0).x (Stroke.idx stroke 0).y]
  else if stroke.length ≥ 2 then
    IntertwineAsEllipses.pairLoop loop stroke Call.algo_ellipse Call.draw_rotated_ellipse
  else
    []

/-- IntertwineAsEllipses::fillStroke -/
def IntertwineAsEllipses.fillStroke (loop : ToolLoop) (stroke : Stroke) : List Call :=
  if stroke.length < 2 then
    IntertwineAsEllipses.joinStroke loop stroke
  else
    IntertwineAsEllipses.pairLoop loop stroke Call.algo_ellipsefill Call.fill_rotated_ellipse

/-- IntertwineAsEllipses::getStrokeBounds.  Stroke::bounds is a parameter; the
branch for ABS(angle) > 0.001 (lines 349-363) is floating-point code and is the
parameter rotatedBounds, applied to stroke.bounds(). -/
def IntertwineAsEllipses.getStrokeBounds (bounds : Stroke → Rect) (rotatedBounds : Rect → Rect)
    (loop : ToolLoop) (stroke : Stroke) : Rect :=
  let b := bounds stroke
  if loop.shapeAngle.absGt then
    rotatedBounds b
  else
    { b with w := b.w + 1, h := b.h + 1 }

/-! ## IntertwineAsBezier (lines 375-410) -/

/-- The loop for (c = c0; c < stroke.size(); c += 4) of IntertwineAsBezier::joinStroke. -/
def IntertwineAsBezier.groupLoop (stroke : Stroke) (c : Nat) : List Call :=
  if c < stroke.length then
    (if stroke.length - c = 1 then
      [Call.doPointshapePoint (Stroke.idx stroke c).x (Stroke.idx stroke c).y]
    else if stroke.length - c = 2 then
      [Call.doPointshapeLine (Stroke.idx stroke c).x (Stroke.idx stroke c).y
        (Stroke.idx stroke (c + 1)).x (Stroke.idx stroke (c + 1)).y]
    else if stroke.length - c = 3 then
      [Call.algo_spline (Stroke.idx stroke c).x (Stroke.idx stroke c).y
        (Stroke.idx stroke (c + 1)).x (Stroke.idx stroke (c + 1)).y
        (Stroke.idx stroke (c + 1)).x (Stroke.idx stroke (c + 1)).y
        (Stroke.idx stroke (c + 2)).x (Stroke.idx stroke (c + 2)).y]
    else
      [Call.algo_spline (Stroke.idx stroke c).x (Stroke.idx stroke c).y
        (Stroke.idx stroke (c + 1)).x (Stroke.idx stroke (c + 1)).y
        (Stroke.idx stroke (c + 2)).x (Stroke.idx stroke (c + 2)).y
        (Stroke.idx stroke (c + 3)).x (Stroke.idx stroke (c + 3)).y]) ++
      IntertwineAsBezier.groupLoop stroke (c + 4)
  else
    []
termination_by stroke.length - c

/-- IntertwineAsBezier::joinStroke -/
def IntertwineAsBezier.joinStroke (_loop : ToolLoop) (stroke : Stroke) : List Call :=
  if stroke.length = 0 then [] else IntertwineAsBezier.groupLoop stroke 0

/-- IntertwineAsBezier::fillStroke -/
def IntertwineAsBezier.fillStroke (loop : ToolLoop) (stroke : Stroke) : List Call :=
  IntertwineAsBezier.joinStroke loop stroke

/-! ## IntertwineAsPixelPerfect (lines 412-501) -/

/-- The members of IntertwineAsPixelPerfect. -/
structure PixelPerfectState where
  m_retainedTracePolicyLast : Bool
  m_pts : Stroke
deriving DecidableEq, Repr

/-- The state of a new IntertwineAsPixelPerfect object. -/
def PixelPerfectState.init : PixelPerfectState :=
  { m_retainedTracePolicyLast := false, m_pts := [] }

/-- IntertwineAsPixelPerfect::prepareIntertwine -/
def IntertwineAsPixelPerfect.prepareIntertwine (_s : PixelPerfectState) : PixelPerfectState :=
  { m_retainedTracePolicyLast := false, m_pts := [] }

/-- The condition of the if at lines 464-468: the pixel c of m_pts is between
two other pixels in the corner of an L-like shape. -/
def IntertwineAsPixelPerfect.isCorner (m_pts : Stroke) (c : Nat) : Bool :=
  decide (c > 0) && decide (c + 1 < m_pts.length)
    && (decide ((Stroke.idx m_pts (c - 1)).x = (Stroke.idx m_pts c).x)
        || decide ((Stroke.idx m_pts (c - 1)).y = (Stroke.idx m_pts c).y))
    && (decide ((Stroke.idx m_pts (c + 1)).x = (Stroke.idx m_pts c).x)
        || decide ((Stroke.idx m_pts (c + 1)).y = (Stroke.idx m_pts c).y))
    && decide ((Stroke.idx m_pts (c - 1)).x ≠ (Stroke.idx m_pts (c + 1)).x)
    && decide ((Stroke.idx m_pts (c - 1)).y ≠ (Stroke.idx m_pts (c + 1)).y)

/-- The loop for (c = c0; c < m_pts.size(); ++c) at lines 461-479, with its
inner ++c and its continue. -/
def IntertwineAsPixelPerfect.stampLoop (m_retainedTracePolicyLast : Bool) (m_pts : Stroke)
    (c : Nat) : List Call :=
  if c < m_pts.length then
    let c1 := if IntertwineAsPixelPerfect.isCorner m_pts c then c + 1 else c
    if c1 = 0 ∧ m_retainedTracePolicyLast = true then
      IntertwineAsPixelPerfect.stampLoop m_retainedTracePolicyLast m_pts (c1 + 1)
    else
      Call.doPointshapePoint (Stroke.idx m_pts c1).x (Stroke.idx m_pts c1).y ::
        IntertwineAsPixelPerfect.stampLoop m_retainedTracePolicyLast m_pts (c1 + 1)
  else
    []
termination_by m_pts.length - c
decreasing_by
  all_goals
    split
    · rename_i h
      have hc : c + 1 < m_pts.length := by
        simp only [IntertwineAsPixelPerfect.isCorner, Bool.and_eq_true, decide_eq_true_eq] at h
        exact h.1.1.1.1.2
      omega
    · omega

/-- IntertwineAsPixelPerfect::joinStroke -/
def IntertwineAsPixelPerfect.joinStroke
    (algo_line_continuous : Int → Int → Int → Int → List Point)
    (loop : ToolLoop) (s : PixelPerfectState) (stroke : Stroke) : Step PixelPerfectState :=
  let s1 : PixelPerfectState :=
    if loop.tracePolicy = TracePolicy.Last then
      { m_retainedTracePolicyLast := true, m_pts := [] }
    else
      s
  if stroke.length = 0 then
    { calls := [], state := s1 }
  else if stroke.length = 1 then
    { calls := [Call.doPointshapePoint (Stroke.idx stroke 0).x (Stroke.idx stroke 0).y]
      state := if s1.m_pts.isEmpty then { s1 with m_pts := stroke } else s1 }
  else
    let m_pts := joinSegments algo_line_continuous stroke s1.m_pts 0
    { calls := IntertwineAsPixelPerfect.stampLoop s1.m_retainedTracePolicyLast m_pts 0
      state := { s1 with m_pts := m_pts } }

/-- IntertwineAsPixelPerfect::fillStroke -/
def IntertwineAsPixelPerfect.fillStroke
    (algo_line_continuous : Int → Int → Int → Int → List Point)
    (loop : ToolLoop) (s : PixelPerfectState) (stroke : Stroke) : Step PixelPerfectState :=
  if stroke.length < 3 then
    IntertwineAsPixelPerfect.joinStroke algo_line_continuous loop s stroke
  else
    let contour : Step PixelPerfectState :=
      if !loop.imageBrush then
        IntertwineAsPixelPerfect.joinStroke algo_line_continuous loop s stroke
      else
        { calls := [], state := s }
    { calls := contour.calls ++ [Call.polygon stroke], state := contour.state }

/-! ## Collaborators declared outside the header -/

/-- Modelled from the spec: the Segment Rasterizer algo_line_continuous, which
is defined outside this header ("given two integer points, produce the ordered
sequence of integer points forming a visually continuous 1-pixel-wide path
between them (standard discrete line walk)"): max(|dx|, |dy|) unit steps from
the first point to the second, the other coordinate interpolated.  It
instantiates the line-walk parameter at concrete inputs. -/
def sampleLineWalk (x0 y0 x1 y1 : Int) : List Point :=
  let n : Nat := max (x1 - x0).natAbs (y1 - y0).natAbs
  (List.range (n + 1)).map (fun (i : Nat) =>
    ⟨x0 + Int.tdiv ((i : Int) * (x1 - x0)) n, y0 + Int.tdiv ((i : Int) * (y1 - y0)) n⟩)

/-- Modelled from the spec: Rect::operator|=, which is declared outside this
header ("union, over every consecutive pair, of the rotated-quad's bounding
box"): the smallest rectangle holding both operands, an empty operand counting
for nothing.  It instantiates the union parameter at concrete inputs. -/
def Rect.union (a b : Rect) : Rect :=
  if a.w ≤ 0 ∨ a.h ≤ 0 then b
  else if b.w ≤ 0 ∨ b.h ≤ 0 then a
  else
    ⟨min a.x b.x, min a.y b.y,
      max (a.x + a.w) (b.x + b.w) - min a.x b.x, max (a.y + a.h) (b.y + b.h) - min a.y b.y⟩

/-- Modelled from the spec: Stroke::bounds(), which is defined outside this
header ("bounding rectangle (min/max over x and y, inclusive)"); the empty
stroke has the empty rectangle.  It instantiates the bounds parameter at
concrete inputs. -/
def Stroke.bounds (s : Stroke) : Rect :=
  match s with
  | [] => ⟨0, 0, 0, 0⟩
  | p :: ps =>
    let minx := ps.foldl (fun m q => min m q.x) p.x
    let miny := ps.foldl (fun m q => min m q.y) p.y
    let maxx := ps.foldl (fun m q => max m q.x) p.x
    let maxy := ps.foldl (fun m q => max m q.y) p.y
    ⟨minx, miny, maxx - minx + 1, maxy - miny + 1⟩

/-- The private rotateRectangle (lines 262-276) at an angle whose sine is 0 and
cosine is 1, where its arithmetic is integer arithmetic.  It instantiates the
rotateRectangle parameter at concrete inputs. -/
def rotateRectangleFlat (x1 y1 x2 y2 : Int) : Stroke :=
  let cx := Int.tdiv (x1 + x2) 2
  let cy := Int.tdiv (y1 + y2) 2
  let a := Int.tdiv (x2 - x1) 2
  let b := Int.tdiv (y2 - y1) 2
  [⟨cx - a, cy - b⟩, ⟨cx + a, cy - b⟩, ⟨cx + a, cy + b⟩, ⟨cx - a, cy + b⟩]

/-- A context for concrete inputs: a freehand controller, trace policy
Accumulate, nothing filled, an ordinary brush, shape angle 0. -/
def freehandLoop : ToolLoop :=
  { isTwoPoints := false, isFreehand := true, fromCenter := false,
    tracePolicy := TracePolicy.Accumulate, filled := false, imageBrush := false,
    shapeAngle := ShapeAngle.below }

/-- A context for concrete inputs: a two-point controller (not freehand), trace
policy Accumulate, filled shapes, an ordinary brush, shape angle 0. -/
def shapeLoop : ToolLoop :=
  { isTwoPoints := true, isFreehand := false, fromCenter := false,
    tracePolicy := TracePolicy.Accumulate, filled := true, imageBrush := false,
    shapeAngle := ShapeAngle.below }

/-- A context for concrete inputs: shapeLoop with the from-center modifier set. -/
def centeredLoop : ToolLoop := { shapeLoop with fromCenter := true }

/-- A context for concrete inputs: shapeLoop with the outcome of the angle
comparisons that the double 0.001 itself gives. -/
def edgeLoop : ToolLoop := { shapeLoop with shapeAngle := ShapeAngle.edge }

/-- A context for concrete inputs: freehandLoop with trace policy Last. -/
def lastLoop : ToolLoop := { freehandLoop with tracePolicy := TracePolicy.Last }

/-- A context for concrete inputs: shapeLoop with a shape angle above the
threshold (ABS(angle) > 0.001). -/
def rotatedLoop : ToolLoop := { shapeLoop with shapeAngle := ShapeAngle.above }

/-! ## Reference sequences, written from the specification -/

/-- The call that stamps one point. -/
def stamp (p : Point) : Call := Call.doPointshapePoint p.x p.y

/-- The outline the specification gives for an axis-aligned rectangle with
normalised corners: the top edge and the bottom edge as lines, then for each
row from y1 to y2, ascending, the left point followed by the right point. -/
def rectOutline (x1 y1 x2 y2 : Int) : List Call :=
  [Call.doPointshapeLine x1 y1 x2 y1, Call.doPointshapeLine x1 y2 x2 y2] ++
    (List.range (y2 - y1 + 1).toNat).flatMap (fun (i : Nat) =>
      [Call.doPointshapePoint x1 (y1 + (i : Int)), Call.doPointshapePoint x2 (y1 + (i : Int))])

/-- One horizontal segment per row from y1 to y2, ascending, each from x1 to x2,
handed to the line sink. -/
def rectRows (x1 y1 x2 y2 : Int) : List Call :=
  (List.range (y2 - y1 + 1).toNat).map (fun (i : Nat) =>
    Call.doPointshapeLine x1 (y1 + (i : Int)) x2 (y1 + (i : Int)))

/-- The same rows handed to the horizontal-run sink instead. -/
def rectRowsHline (x1 y1 x2 y2 : Int) : List Call :=
  (List.range (y2 - y1 + 1).toNat).map (fun (i : Nat) =>
    Call.doPointshapeHline x1 (y1 + (i : Int)) x2)

/-- The consecutive pairs (stroke[c], stroke[c+1]) of a stroke, in order. -/
def consecutivePairs (stroke : Stroke) : List (Point × Point) := stroke.zip stroke.tail

/-- The groups the specification gives for IntertwineAsBezier: groups of four
points are cubic splines; a last group of one point is a point stamp, of two a
line, of three a spline whose two middle control points are the second point. -/
def bezierGroups : Stroke → List Call
  | [] => []
  | [p] => [Call.doPointshapePoint p.x p.y]
  | [p, q] => [Call.doPointshapeLine p.x p.y q.x q.y]
  | [p, q, r] => [Call.algo_spline p.x p.y q.x q.y q.x q.y r.x r.y]
  | p :: q :: r :: t :: rest =>
    Call.algo_spline p.x p.y q.x q.y r.x r.y t.x t.y :: bezierGroups rest

/-! ## The reset operation and sessions -/

/-- Modelled from the spec: the reset operation a strategy inherits when it
does not override prepareIntertwine ("clears any retained state; invoked once at
the start of each new drag/draw session. Default: no-op"); the base class
Intertwine is declared outside this header. -/
def Intertwine.prepareIntertwine {σ : Type} (s : σ) : σ := s

/-- The reset operation of IntertwineAsLines: the class (lines 70-164) does not
override prepareIntertwine, so it is the inherited one. -/
def IntertwineAsLines.prepareIntertwine (s : AsLinesState) : AsLinesState :=
  Intertwine.prepareIntertwine s

/-- The state of a new IntertwineAsLines object: both strokes empty. -/
def AsLinesState.init : AsLinesState := { m_lastPointPrinted := [], m_pts := [] }

/-- One call made on a strategy object during a session. -/
inductive StrategyCall where
  | joinStroke (loop : ToolLoop) (stroke : Stroke)
  | fillStroke (loop : ToolLoop) (stroke : Stroke)
deriving Repr

/-- The context of a call. -/
def StrategyCall.loop : StrategyCall → ToolLoop
  | .joinStroke loop _ => loop
  | .fillStroke loop _ => loop

/-- One call on an IntertwineAsPixelPerfect object. -/
def IntertwineAsPixelPerfect.call (algo_line_continuous : Int → Int → Int → Int → List Point)
    (s : PixelPerfectState) : StrategyCall → Step PixelPerfectState
  | .joinStroke loop stroke =>
    IntertwineAsPixelPerfect.joinStroke algo_line_continuous loop s stroke
  | .fillStroke loop stroke =>
    IntertwineAsPixelPerfect.fillStroke algo_line_continuous loop s stroke

/-- The members of an IntertwineAsPixelPerfect object after a sequence of calls. -/
def IntertwineAsPixelPerfect.session
    (algo_line_continuous : Int → Int → Int → Int → List Point)
    (s : PixelPerfectState) (calls : List StrategyCall) : PixelPerfectState :=
  calls.foldl (fun st c => (IntertwineAsPixelPerfect.call algo_line_continuous st c).state) s

/-- One call on an IntertwineAsLines object. -/
def IntertwineAsLines.call (algo_line_continuous : Int → Int → Int → Int → List Point)
    (s : AsLinesState) : StrategyCall → Outcome AsLinesState
  | .joinStroke loop stroke => IntertwineAsLines.joinStroke algo_line_continuous loop s stroke
  | .fillStroke loop stroke => IntertwineAsLines.fillStroke algo_line_continuous loop s stroke

/-- The members of an IntertwineAsLines object after a sequence of calls; none
when one of the calls did not run to its end. -/
def IntertwineAsLines.session (algo_line_continuous : Int → Int → Int → Int → List Point) :
    AsLinesState → List StrategyCall → Option AsLinesState
  | s, [] => some s
  | s, c :: rest =>
    match (IntertwineAsLines.call algo_line_continuous s c).state with
    | none => none
    | some s1 => IntertwineAsLines.session algo_line_continuous s1 rest

/-- The stroke is a tap that IntertwineAsLines::joinStroke stamps (lines 91-101):
two equal points, and the cache is empty, or its first point differs from the
tapped point, or the trace policy is Last. -/
def IntertwineAsLines.stampedTap (loop : ToolLoop) (s : AsLinesState) (stroke : Stroke) : Prop :=
  stroke.length = 2 ∧ Stroke.idx stroke 0 = Stroke.idx stroke 1 ∧
    (s.m_lastPointPrinted = [] ∨ Stroke.idx s.m_lastPointPrinted 0 ≠ Stroke.idx stroke 0 ∨
      loop.tracePolicy = TracePolicy.Last)

/-- The closing line of IntertwineAsLines::joinStroke (lines 138-140): from the
first point of the stroke to its last point. -/
def closingLine (stroke : Stroke) : Call :=
  Call.doPointshapeLine (Stroke.idx stroke 0).x (Stroke.idx stroke 0).y
    (Stroke.idx stroke (stroke.length - 1)).x (Stroke.idx stroke (stroke.length - 1)).y

/-! ## Reference notions -/

/-- A point lies inside a rectangle with origin (x, y), width w and height h when
x <= px < x + w and y <= py < y + h; the empty rectangle holds no point. -/
def Rect.contains (r : Rect) (p : Point) : Prop :=
  r.x ≤ p.x ∧ p.x < r.x + r.w ∧ r.y ≤ p.y ∧ p.y < r.y + r.h

/-- The coordinates a call hands to a sink: the point of a point stamp, both
endpoints of a line stamp, both ends of a horizontal run. -/
def Call.coords : Call → List Point
  | .doPointshapePoint x y => [⟨x, y⟩]
  | .doPointshapeLine x1 y1 x2 y2 => [⟨x1, y1⟩, ⟨x2, y2⟩]
  | .doPointshapeHline x1 y x2 => [⟨x1, y⟩, ⟨x2, y⟩]
  | _ => []

/-- Index i of the buffer is elided by the corner rule: it is an inner corner
(the test of lines 464-468) and index i-1 was not itself elided; index 0 never
is. -/
def elided (m_pts : Stroke) : Nat → Bool
  | 0 => false
  | i + 1 => IntertwineAsPixelPerfect.isCorner m_pts (i + 1) && !elided m_pts i

/-- Index i of the buffer is stamped by the walk: it is not elided, and it is not
index 0 while the retained flag is set. -/
def stamped (flag : Bool) (m_pts : Stroke) (i : Nat) : Bool :=
  !elided m_pts i && !(decide (i = 0) && flag)

/-- The geometric reading of an inner corner at an interior point q between p
and r: q shares x or y with p, shares x or y with r, and p and r differ in both
x and y. -/
def innerCorner (p q r : Point) : Prop :=
  (p.x = q.x ∨ p.y = q.y) ∧ (r.x = q.x ∨ r.y = q.y) ∧ p.x ≠ r.x ∧ p.y ≠ r.y

/-! ## Loop lemmas -/

theorem idx_eq_getElem (s : Stroke) (c : Nat) (h : c < s.length) :
    Stroke.idx s c = s.get ⟨c, h⟩ := by
  simp [Stroke.idx, List.getD_eq_getElem?_getD, List.getElem?_eq_getElem h]

theorem drop_eq_idx_cons (s : Stroke) (c : Nat) (h : c < s.length) :
    s.drop c = Stroke.idx s c :: s.drop (c + 1) := by
  rw [idx_eq_getElem s c h]
  exact List.drop_eq_getElem_cons h

theorem forEach_stroke (s : Stroke) (f : Point → List Call) (n c : Nat) (hn : n = s.length - c) :
    forEach s.length (fun c => f (Stroke.idx s c)) c = (s.drop c).flatMap f := by
  induction n generalizing c with
  | zero =>
    rw [forEach, if_neg (by omega), List.drop_of_length_le (by omega)]
    rfl
  | succ n ih =>
    have hc : c < s.length := by omega
    rw [forEach, if_pos hc, ih (c + 1) (by omega), drop_eq_idx_cons s c hc]
    rfl

theorem forEach_stroke_single (s : Stroke) (f : Point → Call) (c : Nat) :
    forEach s.length (fun c => [f (Stroke.idx s c)]) c = (s.drop c).map f := by
  rw [forEach_stroke s (fun p => [f p]) _ c rfl]
  induction s.drop c with
  | nil => rfl
  | cons a l ih => simp [List.flatMap_cons, ih]

/-- The consecutive pairs (stroke[c], stroke[c+1]) of a stroke, in order. -/
theorem pairs_step (s : Stroke) (c : Nat) (h : c + 1 < s.length) :
    (s.drop c).zip (s.drop (c + 1)) =
      (Stroke.idx s c, Stroke.idx s (c + 1)) :: (s.drop (c + 1)).zip (s.drop (c + 2)) := by
  rw [drop_eq_idx_cons s c (by omega)]
  conv_lhs => arg 2; rw [drop_eq_idx_cons s (c + 1) h]
  rfl

theorem pairs_done (s : Stroke) (c : Nat) (h : ¬ c + 1 < s.length) :
    (s.drop c).zip (s.drop (c + 1)) = [] := by
  rw [List.drop_of_length_le (l := s) (i := c + 1) (by omega)]
  simp

theorem forPairs_stroke (s : Stroke) (g : Point → Point → List Call) (n c : Nat)
    (hn : n = s.length - c) :
    forPairs s.length (fun c => g (Stroke.idx s c) (Stroke.idx s (c + 1))) c =
      ((s.drop c).zip (s.drop (c + 1))).flatMap (fun pq => g pq.1 pq.2) := by
  induction n generalizing c with
  | zero =>
    rw [forPairs, if_neg (by omega), pairs_done s c (by omega)]
    rfl
  | succ n ih =>
    by_cases hc : c + 1 < s.length
    · rw [forPairs, if_pos hc, ih (c + 1) (by omega), pairs_step s c hc]
      rfl
    · rw [forPairs, if_neg hc, pairs_done s c hc]
      rfl

theorem forRows_eq (y2 : Int) (body : Int → List Call) (n : Nat) (y : Int)
    (hn : n = (y2 + 1 - y).toNat) :
    forRows y2 body y = (List.range n).flatMap (fun (i : Nat) => body (y + (i : Int))) := by
  induction n generalizing y with
  | zero =>
    rw [forRows, if_neg (by omega)]
    rfl
  | succ n ih =>
    rw [forRows, if_pos (by omega), ih (y + 1) (by omega), List.range_succ_eq_map]
    simp only [List.flatMap_cons, List.flatMap_map, Nat.cast_zero, add_zero]
    congr 1
    congr 1
    funext i
    simp only [Function.comp, Nat.cast_succ]
    congr 1
    ring

theorem joinSegments_eq (walk : Int → Int → Int → Int → List Point) (s : Stroke)
    (n c : Nat) (buf : Stroke) (hn : n = s.length - c) :
    joinSegments walk s buf c =
      ((s.drop c).zip (s.drop (c + 1))).foldl
        (fun b pq => lineInto walk pq.1.x pq.1.y pq.2.x pq.2.y b) buf := by
  induction n generalizing c buf with
  | zero =>
    rw [joinSegments, if_neg (by omega), pairs_done s c (by omega)]
    rfl
  | succ n ih =>
    by_cases hc : c + 1 < s.length
    · rw [joinSegments, if_pos hc, ih (c + 1) _ (by omega), pairs_step s c hc]
      rfl
    · rw [joinSegments, if_neg hc, pairs_done s c hc]
      rfl

/-! ## IntertwineNone -/

/-- C1: for every stroke S (the empty one included) IntertwineNone::joinStroke
makes exactly |S| sink calls, the i-th being doPointshapePoint(S[i].x, S[i].y):
the emitted sequence is S mapped point by point, in order, all of it point
stamps, and fillStroke emits the same sequence. -/
theorem c1_none_stamps_each_point_in_order (loop : ToolLoop) (S : Stroke) :
    IntertwineNone.joinStroke loop S = S.map (fun p => Call.doPointshapePoint p.x p.y) ∧
    (IntertwineNone.joinStroke loop S).length = S.length ∧
    (IntertwineNone.joinStroke loop S).all Call.isPoint = true ∧
    IntertwineNone.fillStroke loop S = IntertwineNone.joinStroke loop S := by
  have h : IntertwineNone.joinStroke loop S =
      S.map (fun p => Call.doPointshapePoint p.x p.y) := by
    unfold IntertwineNone.joinStroke
    rw [forEach_stroke_single S (fun p => Call.doPointshapePoint p.x p.y) 0]
    rfl
  refine ⟨h, ?_, ?_, rfl⟩
  · rw [h, List.length_map]
  · rw [h]
    simp [Call.isPoint]

/-! ## addPointsWithoutDuplicatingLastOne -/

theorem addPoints_eq (B : Stroke) (x y : Int) :
    addPointsWithoutDuplicatingLastOne x y B =
      if B ≠ [] ∧ B.getLast? = some ⟨x, y⟩ then B else B ++ [⟨x, y⟩] := by
  unfold addPointsWithoutDuplicatingLastOne Stroke.addPoint Stroke.lastPoint
  rcases List.eq_nil_or_concat B with rfl | ⟨L, b, rfl⟩
  · simp
  · by_cases hb : b = ⟨x, y⟩ <;> simp [hb]

theorem addPoints_chain (B : Stroke) (x y : Int) (h : List.Chain' (fun a b => a ≠ b) B) :
    List.Chain' (fun a b => a ≠ b) (addPointsWithoutDuplicatingLastOne x y B) := by
  rw [addPoints_eq]
  split
  · exact h
  · rename_i hne
    rw [List.chain'_append]
    refine ⟨h, List.chain'_singleton _, ?_⟩
    intro a ha b hb
    simp only [List.head?_cons, Option.mem_def, Option.some.injEq] at hb
    subst hb
    intro hab
    subst hab
    apply hne
    refine ⟨?_, ha⟩
    rintro rfl
    simp at ha

theorem feedPoints_chain (pts : List Point) (B : Stroke)
    (h : List.Chain' (fun a b => a ≠ b) B) :
    List.Chain' (fun a b => a ≠ b) (feedPoints pts B) := by
  induction pts generalizing B with
  | nil => exact h
  | cons p pts ih => exact ih _ (addPoints_chain B p.x p.y h)

theorem joinSegments_chain (walk : Int → Int → Int → Int → List Point) (s : Stroke) (c : Nat)
    (B : Stroke) (h : List.Chain' (fun a b => a ≠ b) B) :
    List.Chain' (fun a b => a ≠ b) (joinSegments walk s B c) := by
  rw [joinSegments_eq walk s _ c B rfl]
  induction (s.drop c).zip (s.drop (c + 1)) generalizing B with
  | nil => exact h
  | cons pq l ih => exact ih _ (feedPoints_chain _ B h)

/-- C2: one call of addPointsWithoutDuplicatingLastOne leaves the buffer B
unchanged exactly when B is non-empty and its last point is the new point, and
otherwise appends that one point.  Hence feeding any sequence of points keeps a
buffer free of adjacent equal points free of them, however the points are split
into two feeds, and so does the per-segment loop of joinStroke for any line walk
and any stroke. -/
theorem c2_addPoints_skips_only_repeated_last (B : Stroke) (x y : Int) (pts more : List Point)
    (walk : Int → Int → Int → Int → List Point) (stroke : Stroke) :
    (addPointsWithoutDuplicatingLastOne x y B =
      if B ≠ [] ∧ B.getLast? = some ⟨x, y⟩ then B else B ++ [⟨x, y⟩]) ∧
    (addPointsWithoutDuplicatingLastOne x y B = B ↔ (B ≠ [] ∧ B.getLast? = some ⟨x, y⟩)) ∧
    (List.Chain' (fun a b => a ≠ b) B →
      List.Chain' (fun a b => a ≠ b) (feedPoints pts B) ∧
      List.Chain' (fun a b => a ≠ b) (feedPoints more (feedPoints pts B)) ∧
      List.Chain' (fun a b => a ≠ b) (joinSegments walk stroke B 0)) ∧
    feedPoints (pts ++ more) B = feedPoints more (feedPoints pts B) := by
  refine ⟨addPoints_eq B x y, ?_, ?_, ?_⟩
  · rw [addPoints_eq]
    constructor
    · intro h
      by_contra hne
      rw [if_neg hne] at h
      simp at h
    · intro h
      rw [if_pos h]
  · intro h
    exact ⟨feedPoints_chain pts B h, feedPoints_chain more _ (feedPoints_chain pts B h),
      joinSegments_chain walk stroke 0 B h⟩
  · unfold feedPoints
    rw [List.foldl_append]

theorem c2_dedup_example :
    List.Chain' (fun a b : Point => a ≠ b) [⟨0, 0⟩, ⟨1, 0⟩] ∧
    feedPoints [⟨1, 0⟩, ⟨1, 0⟩, ⟨2, 0⟩, ⟨2, 0⟩] [⟨0, 0⟩, ⟨1, 0⟩] = [⟨0, 0⟩, ⟨1, 0⟩, ⟨2, 0⟩] ∧
    List.Chain' (fun a b : Point => a ≠ b)
      (feedPoints [⟨1, 0⟩, ⟨1, 0⟩, ⟨2, 0⟩, ⟨2, 0⟩] [⟨0, 0⟩, ⟨1, 0⟩]) :=
  ⟨by simp, by decide,
    ((c2_addPoints_skips_only_repeated_last [⟨0, 0⟩, ⟨1, 0⟩] 1 0
      [⟨1, 0⟩, ⟨1, 0⟩, ⟨2, 0⟩, ⟨2, 0⟩] [] sampleLineWalk []).2.2.1 (by simp)).1⟩

/-! ## IntertwineAsPixelPerfect: the stamping walk -/

theorem stampLoop_done (flag : Bool) (m_pts : Stroke) (c : Nat) (h : ¬ c < m_pts.length) :
    IntertwineAsPixelPerfect.stampLoop flag m_pts c = [] := by
  rw [IntertwineAsPixelPerfect.stampLoop, if_neg h]

theorem stampLoop_corner (flag : Bool) (m_pts : Stroke) (c : Nat) (h : c < m_pts.length)
    (hc : IntertwineAsPixelPerfect.isCorner m_pts c = true) :
    IntertwineAsPixelPerfect.stampLoop flag m_pts c =
      stamp (Stroke.idx m_pts (c + 1)) ::
        IntertwineAsPixelPerfect.stampLoop flag m_pts (c + 2) := by
  rw [IntertwineAsPixelPerfect.stampLoop, if_pos h]
  simp only [hc, if_true]
  rw [if_neg (by omega)]
  rfl

theorem stampLoop_plain (flag : Bool) (m_pts : Stroke) (c : Nat) (h : c < m_pts.length)
    (hc : IntertwineAsPixelPerfect.isCorner m_pts c = false) :
    IntertwineAsPixelPerfect.stampLoop flag m_pts c =
      (if c = 0 ∧ flag = true then [] else [stamp (Stroke.idx m_pts c)]) ++
        IntertwineAsPixelPerfect.stampLoop flag m_pts (c + 1) := by
  rw [IntertwineAsPixelPerfect.stampLoop, if_pos h]
  simp only [hc, Bool.false_eq_true, if_false]
  split <;> rfl

theorem isCorner_zero (m_pts : Stroke) : IntertwineAsPixelPerfect.isCorner m_pts 0 = false := by
  simp [IntertwineAsPixelPerfect.isCorner]

theorem isCorner_last (m_pts : Stroke) (c : Nat) (h : ¬ c + 1 < m_pts.length) :
    IntertwineAsPixelPerfect.isCorner m_pts c = false := by
  simp only [IntertwineAsPixelPerfect.isCorner, h, decide_False, Bool.and_false, Bool.false_and]

theorem isCorner_triple (p q r : Point) :
    IntertwineAsPixelPerfect.isCorner [p, q, r] 1 =
      ((decide (p.x = q.x) || decide (p.y = q.y)) && (decide (r.x = q.x) || decide (r.y = q.y))
        && decide (p.x ≠ r.x) && decide (p.y ≠ r.y)) := by
  simp [IntertwineAsPixelPerfect.isCorner, Stroke.idx]

/-- The walk over a buffer of three points when the retained flag is false. -/
theorem stampLoop_triple (p q r : Point) :
    IntertwineAsPixelPerfect.stampLoop false [p, q, r] 0 =
      if IntertwineAsPixelPerfect.isCorner [p, q, r] 1 = true then [stamp p, stamp r]
      else [stamp p, stamp q, stamp r] := by
  rw [stampLoop_plain false [p, q, r] 0 (by simp) (isCorner_zero _)]
  have h0 : ¬ (0 = 0 ∧ false = true) := by simp
  rw [if_neg h0]
  by_cases hc : IntertwineAsPixelPerfect.isCorner [p, q, r] 1 = true
  · rw [if_pos hc, stampLoop_corner false [p, q, r] 1 (by simp) hc,
      stampLoop_done false [p, q, r] 3 (by simp)]
    simp [Stroke.idx]
  · rw [if_neg hc, stampLoop_plain false [p, q, r] 1 (by simp) (by simpa using hc),
      stampLoop_plain false [p, q, r] 2 (by simp) (isCorner_last _ _ (by simp)),
      stampLoop_done false [p, q, r] 3 (by simp)]
    simp [Stroke.idx]

theorem pixelPerfect_join_multi (walk : Int → Int → Int → Int → List Point) (loop : ToolLoop)
    (s : PixelPerfectState) (stroke : Stroke)
    (hpol : loop.tracePolicy = TracePolicy.Accumulate) (hlen : 2 ≤ stroke.length) :
    IntertwineAsPixelPerfect.joinStroke walk loop s stroke =
      { calls := IntertwineAsPixelPerfect.stampLoop s.m_retainedTracePolicyLast
          (joinSegments walk stroke s.m_pts 0) 0
        state := { s with m_pts := joinSegments walk stroke s.m_pts 0 } } := by
  unfold IntertwineAsPixelPerfect.joinStroke
  simp only [hpol]
  rw [if_neg (by omega), if_neg (by omega)]
  simp

/-- C3: in IntertwineAsPixelPerfect::joinStroke with the retained flag false
(trace policy Accumulate, at least two stroke points), when the buffer m_pts
after the line walks is a triple [p, q, r]: if q shares x or y with p, shares x
or y with r, and p and r differ in both x and y, the calls are exactly the two
point stamps p then r and q is not stamped; if the three points share one x or
share one y, the calls are the three point stamps p, q, r in order. -/
theorem c3_pixelPerfect_elides_inner_corner (walk : Int → Int → Int → Int → List Point)
    (loop : ToolLoop) (s : PixelPerfectState) (stroke : Stroke) (p q r : Point)
    (hpol : loop.tracePolicy = TracePolicy.Accumulate)
    (hflag : s.m_retainedTracePolicyLast = false)
    (hlen : 2 ≤ stroke.length)
    (hbuf : joinSegments walk stroke s.m_pts 0 = [p, q, r]) :
    ((p.x = q.x ∨ p.y = q.y) ∧ (r.x = q.x ∨ r.y = q.y) ∧ p.x ≠ r.x ∧ p.y ≠ r.y →
      (IntertwineAsPixelPerfect.joinStroke walk loop s stroke).calls = [stamp p, stamp r] ∧
      stamp q ∉ (IntertwineAsPixelPerfect.joinStroke walk loop s stroke).calls) ∧
    ((p.x = q.x ∧ q.x = r.x) ∨ (p.y = q.y ∧ q.y = r.y) →
      (IntertwineAsPixelPerfect.joinStroke walk loop s stroke).calls =
        [stamp p, stamp q, stamp r]) := by
  rw [pixelPerfect_join_multi walk loop s stroke hpol hlen, hbuf, hflag]
  simp only []
  rw [stampLoop_triple, isCorner_triple]
  constructor
  · rintro ⟨h1, h2, h3, h4⟩
    have hc : ((decide (p.x = q.x) || decide (p.y = q.y)) &&
        (decide (r.x = q.x) || decide (r.y = q.y)) && decide (p.x ≠ r.x) &&
        decide (p.y ≠ r.y)) = true := by
      simp only [Bool.and_eq_true, Bool.or_eq_true, decide_eq_true_eq]
      exact ⟨⟨⟨h1, h2⟩, h3⟩, h4⟩
    rw [if_pos hc]
    refine ⟨rfl, ?_⟩
    simp only [stamp, List.mem_cons, Call.doPointshapePoint.injEq, List.mem_singleton,
      List.mem_nil_iff, or_false, not_or, not_and]
    constructor
    · intro hx hy
      rcases h2 with h2 | h2
      · exact h3 (by omega)
      · exact h4 (by omega)
    · intro hx hy
      rcases h1 with h1 | h1
      · exact h3 (by omega)
      · exact h4 (by omega)
  · intro h
    have hc : ¬ ((decide (p.x = q.x) || decide (p.y = q.y)) &&
        (decide (r.x = q.x) || decide (r.y = q.y)) && decide (p.x ≠ r.x) &&
        decide (p.y ≠ r.y)) = true := by
      simp only [Bool.and_eq_true, Bool.or_eq_true, decide_eq_true_eq]
      rintro ⟨⟨_, h3⟩, h4⟩
      rcases h with ⟨a, b⟩ | ⟨a, b⟩
      · exact h3 (by omega)
      · exact h4 (by omega)
    rw [if_neg hc]

theorem c3_corner_and_straight_run_example :
    (IntertwineAsPixelPerfect.joinStroke sampleLineWalk freehandLoop PixelPerfectState.init
      [⟨0, 0⟩, ⟨1, 0⟩, ⟨1, 1⟩]).calls = [stamp ⟨0, 0⟩, stamp ⟨1, 1⟩] ∧
    (IntertwineAsPixelPerfect.joinStroke sampleLineWalk freehandLoop PixelPerfectState.init
      [⟨0, 0⟩, ⟨1, 0⟩, ⟨2, 0⟩]).calls = [stamp ⟨0, 0⟩, stamp ⟨1, 0⟩, stamp ⟨2, 0⟩] :=
  ⟨((c3_pixelPerfect_elides_inner_corner sampleLineWalk freehandLoop PixelPerfectState.init
      [⟨0, 0⟩, ⟨1, 0⟩, ⟨1, 1⟩] ⟨0, 0⟩ ⟨1, 0⟩ ⟨1, 1⟩ rfl rfl (by decide)
      (by rw [joinSegments_eq _ _ _ 0 _ rfl]; decide)).1 (by decide)).1,
    (c3_pixelPerfect_elides_inner_corner sampleLineWalk freehandLoop PixelPerfectState.init
      [⟨0, 0⟩, ⟨1, 0⟩, ⟨2, 0⟩] ⟨0, 0⟩ ⟨1, 0⟩ ⟨2, 0⟩ rfl rfl (by decide)
      (by rw [joinSegments_eq _ _ _ 0 _ rfl]; decide)).2 (by decide)⟩

/-! ## IntertwineAsRectangles -/

theorem sortPair_eq (a b : Int) : sortPair a b = (min a b, max a b) := by
  unfold sortPair
  split
  · rw [min_eq_right (by omega), max_eq_left (by omega)]
  · rw [min_eq_left (by omega), max_eq_right (by omega)]

theorem consecutivePairs_eq (stroke : Stroke) :
    (stroke.drop 0).zip (stroke.drop (0 + 1)) = consecutivePairs stroke := by
  simp [consecutivePairs]

theorem forRows_outline (x1 y1 x2 y2 : Int) :
    [Call.doPointshapeLine x1 y1 x2 y1, Call.doPointshapeLine x1 y2 x2 y2] ++
      forRows y2 (fun y => [Call.doPointshapePoint x1 y, Call.doPointshapePoint x2 y]) y1 =
      rectOutline x1 y1 x2 y2 := by
  rw [forRows_eq y2 _ (y2 - y1 + 1).toNat y1 (by omega)]
  rfl

theorem forRows_rows (x1 y1 x2 y2 : Int) :
    forRows y2 (fun y => [Call.doPointshapeLine x1 y x2 y]) y1 = rectRows x1 y1 x2 y2 := by
  rw [forRows_eq y2 _ (y2 - y1 + 1).toNat y1 (by omega)]
  unfold rectRows
  induction List.range (y2 - y1 + 1).toNat with
  | nil => rfl
  | cons a l ih => simp [List.flatMap_cons, ih]

theorem rowStamps_counts (x1 y1 x2 : Int) (n : Nat) :
    ((List.range n).flatMap (fun (i : Nat) =>
      [Call.doPointshapePoint x1 (y1 + (i : Int)),
        Call.doPointshapePoint x2 (y1 + (i : Int))])).countP Call.isPoint = 2 * n ∧
    ((List.range n).flatMap (fun (i : Nat) =>
      [Call.doPointshapePoint x1 (y1 + (i : Int)),
        Call.doPointshapePoint x2 (y1 + (i : Int))])).countP Call.isLine = 0 ∧
    ((List.range n).flatMap (fun (i : Nat) =>
      [Call.doPointshapePoint x1 (y1 + (i : Int)),
        Call.doPointshapePoint x2 (y1 + (i : Int))])).length = 2 * n := by
  induction n with
  | zero => simp
  | succ n ih =>
    obtain ⟨h1, h2, h3⟩ := ih
    rw [List.range_succ, List.flatMap_append, List.countP_append, List.countP_append,
      List.length_append, h1, h2, h3]
    simp [Call.isPoint, Call.isLine, List.countP_cons]
    omega

/-- C4: for a stroke of at least two points at shape angle 0 (ABS(angle) <
0.001), IntertwineAsRectangles::joinStroke emits, pair after pair, for the pair
normalised to x1 <= x2 and y1 <= y2: the line (x1,y1)-(x2,y1), the line
(x1,y2)-(x2,y2), then for each row y from y1 to y2, ascending, the point (x1,y)
followed by the point (x2,y), and nothing else.  For any pair (a, b) that is 2
line stamps and 2*(y2-y1+1) point stamps, 2 + 2*(y2-y1+1) calls in all. -/
theorem c4_rectangles_join_outline (rotateRectangle : Int → Int → Int → Int → Stroke)
    (loop : ToolLoop) (stroke : Stroke) (a b : Point)
    (hangle : loop.shapeAngle = ShapeAngle.below) (hlen : 2 ≤ stroke.length) :
    IntertwineAsRectangles.joinStroke rotateRectangle loop stroke =
      (consecutivePairs stroke).flatMap (fun pq =>
        rectOutline (min pq.1.x pq.2.x) (min pq.1.y pq.2.y)
          (max pq.1.x pq.2.x) (max pq.1.y pq.2.y)) ∧
    (rectOutline (min a.x b.x) (min a.y b.y) (max a.x b.x) (max a.y b.y)).countP
      Call.isLine = 2 ∧
    (((rectOutline (min a.x b.x) (min a.y b.y) (max a.x b.x) (max a.y b.y)).countP
      Call.isPoint : Nat) : Int) = 2 * (max a.y b.y - min a.y b.y + 1) ∧
    (((rectOutline (min a.x b.x) (min a.y b.y) (max a.x b.x) (max a.y b.y)).length
      : Nat) : Int) = 2 + 2 * (max a.y b.y - min a.y b.y + 1) := by
  refine ⟨?_, ?_, ?_, ?_⟩
  · unfold IntertwineAsRectangles.joinStroke
    rw [if_neg (by omega), if_neg (by omega), if_pos (by omega)]
    simp only [hangle, ShapeAngle.absLt, if_true, sortPair_eq, forRows_outline]
    rw [forPairs_stroke stroke (fun p q =>
      rectOutline (min p.x q.x) (min p.y q.y) (max p.x q.x) (max p.y q.y)) _ 0 rfl,
      consecutivePairs_eq]
  · obtain ⟨_, h2, _⟩ := rowStamps_counts (min a.x b.x) (min a.y b.y) (max a.x b.x)
      (max a.y b.y - min a.y b.y + 1).toNat
    unfold rectOutline
    rw [List.countP_append, h2]
    simp [Call.isLine, List.countP_cons]
  · obtain ⟨h1, _, _⟩ := rowStamps_counts (min a.x b.x) (min a.y b.y) (max a.x b.x)
      (max a.y b.y - min a.y b.y + 1).toNat
    have hle : min a.y b.y ≤ max a.y b.y := le_trans (min_le_left _ _) (le_max_left _ _)
    unfold rectOutline
    rw [List.countP_append, h1]
    simp [Call.isPoint, List.countP_cons]
    omega
  · obtain ⟨_, _, h3⟩ := rowStamps_counts (min a.x b.x) (min a.y b.y) (max a.x b.x)
      (max a.y b.y - min a.y b.y + 1).toNat
    have hle : min a.y b.y ≤ max a.y b.y := le_trans (min_le_left _ _) (le_max_left _ _)
    unfold rectOutline
    rw [List.length_append, h3]
    simp
    omega

theorem c4_square_example :
    IntertwineAsRectangles.joinStroke rotateRectangleFlat shapeLoop [⟨0, 0⟩, ⟨3, 3⟩] =
      [Call.doPointshapeLine 0 0 3 0, Call.doPointshapeLine 0 3 3 3,
        Call.doPointshapePoint 0 0, Call.doPointshapePoint 3 0,
        Call.doPointshapePoint 0 1, Call.doPointshapePoint 3 1,
        Call.doPointshapePoint 0 2, Call.doPointshapePoint 3 2,
        Call.doPointshapePoint 0 3, Call.doPointshapePoint 3 3] :=
  (c4_rectangles_join_outline rotateRectangleFlat shapeLoop [⟨0, 0⟩, ⟨3, 3⟩] ⟨0, 0⟩ ⟨3, 3⟩
    rfl (by decide)).1.trans (by decide)

theorem rectRows_all_line (x1 y1 x2 y2 : Int) (c : Call) (hc : c ∈ rectRows x1 y1 x2 y2) :
    c.isLine = true ∧ c.isHline = false := by
  unfold rectRows at hc
  rw [List.mem_map] at hc
  obtain ⟨i, _, rfl⟩ := hc
  exact ⟨rfl, rfl⟩

theorem rectangles_fill_rows (rotateRectangle : Int → Int → Int → Int → Stroke)
    (loop : ToolLoop) (stroke : Stroke)
    (hangle : loop.shapeAngle = ShapeAngle.below) (hlen : 2 ≤ stroke.length) :
    IntertwineAsRectangles.fillStroke rotateRectangle loop stroke =
      (consecutivePairs stroke).flatMap (fun pq =>
        rectRows (min pq.1.x pq.2.x) (min pq.1.y pq.2.y)
          (max pq.1.x pq.2.x) (max pq.1.y pq.2.y)) := by
  unfold IntertwineAsRectangles.fillStroke
  rw [if_neg (by omega)]
  simp only [hangle, ShapeAngle.absLt, if_true, sortPair_eq, forRows_rows]
  rw [forPairs_stroke stroke (fun p q =>
    rectRows (min p.x q.x) (min p.y q.y) (max p.x q.x) (max p.y q.y)) _ 0 rfl,
    consecutivePairs_eq]

/-- C5, the claim as stated fails: on the corners (0,0)-(3,3) at angle 0
fillStroke makes four calls, one per row 0..3 spanning x = 0..3, but each is a
call of the line sink doPointshapeLine(0, y, 3, y); the horizontal-run sink
doPointshapeHline is not called at all. -/
theorem c5_fill_rows_go_to_line_sink :
    IntertwineAsRectangles.fillStroke rotateRectangleFlat shapeLoop [⟨0, 0⟩, ⟨3, 3⟩] =
      [Call.doPointshapeLine 0 0 3 0, Call.doPointshapeLine 0 1 3 1,
        Call.doPointshapeLine 0 2 3 2, Call.doPointshapeLine 0 3 3 3] ∧
    IntertwineAsRectangles.fillStroke rotateRectangleFlat shapeLoop [⟨0, 0⟩, ⟨3, 3⟩] ≠
      [Call.doPointshapeHline 0 0 3, Call.doPointshapeHline 0 1 3,
        Call.doPointshapeHline 0 2 3, Call.doPointshapeHline 0 3 3] ∧
    (IntertwineAsRectangles.fillStroke rotateRectangleFlat shapeLoop
      [⟨0, 0⟩, ⟨3, 3⟩]).any Call.isHline = false := by
  have h : IntertwineAsRectangles.fillStroke rotateRectangleFlat shapeLoop [⟨0, 0⟩, ⟨3, 3⟩] =
      [Call.doPointshapeLine 0 0 3 0, Call.doPointshapeLine 0 1 3 1,
        Call.doPointshapeLine 0 2 3 2, Call.doPointshapeLine 0 3 3 3] :=
    (rectangles_fill_rows rotateRectangleFlat shapeLoop [⟨0, 0⟩, ⟨3, 3⟩] rfl
      (by decide)).trans (by decide)
  rw [h]
  exact ⟨rfl, by decide, by decide⟩

/-- C5, amended: for a stroke of at least two points at shape angle 0
(ABS(angle) < 0.001), IntertwineAsRectangles::fillStroke emits, pair after pair,
for the pair normalised to x1 <= x2 and y1 <= y2, exactly y2-y1+1 calls of the
line sink, doPointshapeLine(x1, y, x2, y) for y = y1..y2 ascending, and no
other call: every call is a line stamp and none goes to the horizontal-run
sink. -/
theorem c5_rectangles_fill_one_line_per_row (rotateRectangle : Int → Int → Int → Int → Stroke)
    (loop : ToolLoop) (stroke : Stroke) (a b : Point)
    (hangle : loop.shapeAngle = ShapeAngle.below) (hlen : 2 ≤ stroke.length) :
    IntertwineAsRectangles.fillStroke rotateRectangle loop stroke =
      (consecutivePairs stroke).flatMap (fun pq =>
        rectRows (min pq.1.x pq.2.x) (min pq.1.y pq.2.y)
          (max pq.1.x pq.2.x) (max pq.1.y pq.2.y)) ∧
    (((rectRows (min a.x b.x) (min a.y b.y) (max a.x b.x) (max a.y b.y)).length : Nat) : Int) =
      max a.y b.y - min a.y b.y + 1 ∧
    (IntertwineAsRectangles.fillStroke rotateRectangle loop stroke).all Call.isLine = true ∧
    (IntertwineAsRectangles.fillStroke rotateRectangle loop stroke).any Call.isHline = false := by
  have h := rectangles_fill_rows rotateRectangle loop stroke hangle hlen
  have hle : min a.y b.y ≤ max a.y b.y := le_trans (min_le_left _ _) (le_max_left _ _)
  refine ⟨h, ?_, ?_, ?_⟩
  · unfold rectRows
    rw [List.length_map, List.length_range]
    omega
  · rw [h, List.all_eq_true]
    intro c hc
    rw [List.mem_flatMap] at hc
    obtain ⟨pq, _, hc⟩ := hc
    exact (rectRows_all_line _ _ _ _ c hc).1
  · rw [h, Bool.eq_false_iff]
    intro hany
    rw [List.any_eq_true] at hany
    obtain ⟨c, hc, hh⟩ := hany
    rw [List.mem_flatMap] at hc
    obtain ⟨pq, _, hc⟩ := hc
    rw [(rectRows_all_line _ _ _ _ c hc).2] at hh
    cases hh

theorem c5_fill_square_example :
    IntertwineAsRectangles.fillStroke rotateRectangleFlat shapeLoop [⟨0, 0⟩, ⟨3, 3⟩] =
      rectRows 0 0 3 3 ∧
    (IntertwineAsRectangles.fillStroke rotateRectangleFlat shapeLoop
      [⟨0, 0⟩, ⟨3, 3⟩]).all Call.isLine = true :=
  ⟨(c5_rectangles_fill_one_line_per_row rotateRectangleFlat shapeLoop [⟨0, 0⟩, ⟨3, 3⟩]
      ⟨0, 0⟩ ⟨3, 3⟩ rfl (by decide)).1.trans (by decide),
    (c5_rectangles_fill_one_line_per_row rotateRectangleFlat shapeLoop [⟨0, 0⟩, ⟨3, 3⟩]
      ⟨0, 0⟩ ⟨3, 3⟩ rfl (by decide)).2.2.1⟩

/-! ## IntertwineAsBezier -/

theorem groupLoop_done (stroke : Stroke) (c : Nat) (h : ¬ c < stroke.length) :
    IntertwineAsBezier.groupLoop stroke c = [] := by
  rw [IntertwineAsBezier.groupLoop, if_neg h]

theorem groupLoop_eq (stroke : Stroke) (n : Nat) :
    ∀ c, stroke.length - c ≤ n →
      IntertwineAsBezier.groupLoop stroke c = bezierGroups (stroke.drop c) := by
  induction n with
  | zero =>
    intro c hc
    rw [groupLoop_done stroke c (by omega), List.drop_of_length_le (by omega)]
    rfl
  | succ n ih =>
    intro c hc
    by_cases hlt : c < stroke.length
    · rw [IntertwineAsBezier.groupLoop, if_pos hlt]
      by_cases h1 : stroke.length - c = 1
      · rw [if_pos h1, groupLoop_done stroke (c + 4) (by omega), drop_eq_idx_cons stroke c hlt,
          List.drop_of_length_le (l := stroke) (i := c + 1) (by omega)]
        rfl
      · by_cases h2 : stroke.length - c = 2
        · rw [if_neg h1, if_pos h2, groupLoop_done stroke (c + 4) (by omega),
            drop_eq_idx_cons stroke c hlt, drop_eq_idx_cons stroke (c + 1) (by omega),
            List.drop_of_length_le (l := stroke) (i := c + 1 + 1) (by omega)]
          rfl
        · by_cases h3 : stroke.length - c = 3
          · rw [if_neg h1, if_neg h2, if_pos h3, groupLoop_done stroke (c + 4) (by omega),
              drop_eq_idx_cons stroke c hlt, drop_eq_idx_cons stroke (c + 1) (by omega),
              drop_eq_idx_cons stroke (c + 1 + 1) (by omega),
              List.drop_of_length_le (l := stroke) (i := c + 1 + 1 + 1) (by omega)]
            rfl
          · rw [if_neg h1, if_neg h2, if_neg h3, ih (c + 4) (by omega),
              drop_eq_idx_cons stroke c hlt, drop_eq_idx_cons stroke (c + 1) (by omega),
              drop_eq_idx_cons stroke (c + 1 + 1) (by omega),
              drop_eq_idx_cons stroke (c + 1 + 1 + 1) (by omega)]
            rfl
    · rw [groupLoop_done stroke c hlt, List.drop_of_length_le (by omega)]
      rfl

theorem bezierGroups_length (stroke : Stroke) (n : Nat) :
    stroke.length ≤ n → (bezierGroups stroke).length = (stroke.length + 3) / 4 := by
  induction n generalizing stroke with
  | zero =>
    intro h
    have : stroke = [] := List.length_eq_zero.mp (by omega)
    subst this
    rfl
  | succ n ih =>
    intro h
    match stroke, h with
    | [], _ => rfl
    | [_], _ => simp [bezierGroups]
    | [_, _], _ => simp [bezierGroups]
    | [_, _, _], _ => simp [bezierGroups]
    | p :: q :: r :: t :: rest, h =>
      simp only [List.length_cons] at h
      simp only [bezierGroups, List.length_cons, ih rest (by omega)]
      omega

/-- C6: IntertwineAsBezier::joinStroke makes one call per group of the stroke
taken four points at a time from index 0: a full group p0..p3 is one algo_spline
on (p0, p1, p2, p3); a last group of one point is one point stamp and no spline;
of two points one line stamp; of three points p0, p1, p2 one algo_spline on
(p0, p1, p1, p2).  That is ceil(n/4) calls for n points; a 1-point stroke gives
exactly one point stamp and a 3-point stroke exactly one degenerate spline. -/
theorem c6_bezier_one_call_per_group (loop : ToolLoop) (stroke : Stroke) (p q r : Point) :
    IntertwineAsBezier.joinStroke loop stroke = bezierGroups stroke ∧
    (IntertwineAsBezier.joinStroke loop stroke).length = (stroke.length + 3) / 4 ∧
    IntertwineAsBezier.joinStroke loop [p] = [Call.doPointshapePoint p.x p.y] ∧
    IntertwineAsBezier.joinStroke loop [p, q, r] =
      [Call.algo_spline p.x p.y q.x q.y q.x q.y r.x r.y] := by
  have h : ∀ s : Stroke, IntertwineAsBezier.joinStroke loop s = bezierGroups s := by
    intro s
    unfold IntertwineAsBezier.joinStroke
    split
    · rename_i h0
      rw [List.length_eq_zero.mp h0]
      rfl
    · rw [groupLoop_eq s s.length 0 (by omega)]
      rfl
  refine ⟨h stroke, ?_, ?_, ?_⟩
  · rw [h stroke, bezierGroups_length stroke stroke.length le_rfl]
  · rw [h]
    rfl
  · rw [h]
    rfl

theorem c6_bezier_examples :
    IntertwineAsBezier.joinStroke freehandLoop [⟨0, 0⟩, ⟨5, 0⟩, ⟨10, 10⟩] =
      [Call.algo_spline 0 0 5 0 5 0 10 10] ∧
    IntertwineAsBezier.joinStroke freehandLoop [⟨7, 7⟩] = [Call.doPointshapePoint 7 7] ∧
    IntertwineAsBezier.joinStroke freehandLoop
      [⟨0, 0⟩, ⟨1, 0⟩, ⟨2, 0⟩, ⟨3, 0⟩, ⟨4, 0⟩, ⟨5, 0⟩] =
      [Call.algo_spline 0 0 1 0 2 0 3 0, Call.doPointshapeLine 4 0 5 0] :=
  ⟨(c6_bezier_one_call_per_group freehandLoop [] ⟨0, 0⟩ ⟨5, 0⟩ ⟨10, 10⟩).2.2.2,
    (c6_bezier_one_call_per_group freehandLoop [] ⟨7, 7⟩ ⟨0, 0⟩ ⟨0, 0⟩).2.2.1,
    (c6_bezier_one_call_per_group freehandLoop
      [⟨0, 0⟩, ⟨1, 0⟩, ⟨2, 0⟩, ⟨3, 0⟩, ⟨4, 0⟩, ⟨5, 0⟩] ⟨0, 0⟩ ⟨0, 0⟩ ⟨0, 0⟩).1.trans
      (by decide)⟩

/-! ## IntertwineAsLines -/

theorem closedShape_filter_isPoint (loop : ToolLoop) (stroke : Stroke) :
    (IntertwineAsLines.closedShape loop stroke).filter Call.isPoint = [] := by
  unfold IntertwineAsLines.closedShape
  split <;> simp [Call.isPoint]

theorem closedShape_freehand (loop : ToolLoop) (stroke : Stroke) (h : loop.isFreehand = true) :
    IntertwineAsLines.closedShape loop stroke = [] := by
  unfold IntertwineAsLines.closedShape
  simp [h]

theorem filter_isPoint_map_stamp (pts : List Point) :
    (pts.map stamp).filter Call.isPoint = pts.map stamp := by
  induction pts with
  | nil => rfl
  | cons a l ih => simp [stamp, Call.isPoint] at ih ⊢

/-- The multi-point branch of IntertwineAsLines::joinStroke (lines 104-128 and
the tail 131-141). -/
theorem asLines_join_multi (walk : Int → Int → Int → Int → List Point) (loop : ToolLoop)
    (s : AsLinesState) (stroke : Stroke) (hlen : 2 ≤ stroke.length)
    (htap : ¬ (stroke.length = 2 ∧ Stroke.idx stroke 0 = Stroke.idx stroke 1)) :
    IntertwineAsLines.joinStroke walk loop s stroke =
      if s.m_lastPointPrinted.isEmpty = true ∨ (joinSegments walk stroke s.m_pts 0).isEmpty = true
      then
        { calls := ((joinSegments walk stroke s.m_pts 0).drop
            (if loop.isFreehand = true then 1 else 0)).map stamp
          state := none }
      else
        { calls := ((joinSegments walk stroke s.m_pts 0).drop
            (if loop.isFreehand = true then 1 else 0)).map stamp ++
              IntertwineAsLines.closedShape loop stroke
          state := some
            { m_lastPointPrinted := s.m_lastPointPrinted.set 0
                (Stroke.idx (joinSegments walk stroke s.m_pts 0)
                  ((joinSegments walk stroke s.m_pts 0).length - 1))
              m_pts := [] } } := by
  unfold IntertwineAsLines.joinStroke
  rw [if_neg (by omega), if_neg (by omega), if_pos (by omega), if_neg htap]
  simp only []
  have hst : (fun p : Point => Call.doPointshapePoint p.x p.y) = stamp := rfl
  rw [forEach_stroke_single (joinSegments walk stroke s.m_pts 0)
    (fun p => Call.doPointshapePoint p.x p.y), hst]
  by_cases h1 : s.m_lastPointPrinted.isEmpty = true
  · rw [if_pos h1, if_pos (Or.inl h1)]
  · by_cases h2 : (joinSegments walk stroke s.m_pts 0).isEmpty = true
    · rw [if_neg h1, if_pos h2, if_pos (Or.inr h2)]
    · have h3 : ¬ (s.m_lastPointPrinted.isEmpty = true ∨
          (joinSegments walk stroke s.m_pts 0).isEmpty = true) := by
        rintro (h | h)
        · exact h1 h
        · exact h2 h
      rw [if_neg h1, if_neg h2, if_neg h3]

/-- Between the calls of a session m_pts is empty: a call of
IntertwineAsLines::joinStroke that starts with m_pts empty and runs to its end
leaves it empty. -/
theorem asLines_m_pts_stays_empty (walk : Int → Int → Int → Int → List Point) (loop : ToolLoop)
    (s s1 : AsLinesState) (stroke : Stroke) (hpts : s.m_pts = [])
    (hrun : (IntertwineAsLines.joinStroke walk loop s stroke).state = some s1) :
    s1.m_pts = [] := by
  unfold IntertwineAsLines.joinStroke IntertwineAsLines.saveLastPointAndDoPointshape at hrun
  dsimp only at hrun
  split_ifs at hrun <;> cases hrun <;> first | rfl | exact hpts

/-- C7: for a stroke of at least two points that is not a tap of two equal
points, with m_pts the buffer after the line walks of this call: when the
controller is freehand the calls of IntertwineAsLines::joinStroke are exactly
the point stamps of m_pts without its first element, in order; with m_pts empty
at entry, as it is between the calls of a session, that buffer is the
deduplicated rasterisation of the stroke, whose first point is thus not
stamped.  When the controller is not freehand the point stamps are those of the
whole of m_pts. -/
theorem c7_asLines_freehand_skips_first_point (walk : Int → Int → Int → Int → List Point)
    (loop : ToolLoop) (s : AsLinesState) (stroke : Stroke) (hlen : 2 ≤ stroke.length)
    (htap : ¬ (stroke.length = 2 ∧ Stroke.idx stroke 0 = Stroke.idx stroke 1)) :
    (loop.isFreehand = true →
      (IntertwineAsLines.joinStroke walk loop s stroke).calls =
        ((joinSegments walk stroke s.m_pts 0).drop 1).map stamp) ∧
    (loop.isFreehand = true → s.m_pts = [] →
      (IntertwineAsLines.joinStroke walk loop s stroke).calls =
        ((joinSegments walk stroke [] 0).drop 1).map stamp) ∧
    (loop.isFreehand = false →
      (IntertwineAsLines.joinStroke walk loop s stroke).calls.filter Call.isPoint =
        (joinSegments walk stroke s.m_pts 0).map stamp) := by
  rw [asLines_join_multi walk loop s stroke hlen htap]
  have hfree : loop.isFreehand = true →
      (if s.m_lastPointPrinted.isEmpty = true ∨
          (joinSegments walk stroke s.m_pts 0).isEmpty = true then
        ({ calls := ((joinSegments walk stroke s.m_pts 0).drop
            (if loop.isFreehand = true then 1 else 0)).map stamp
           state := none } : Outcome AsLinesState)
      else
        { calls := ((joinSegments walk stroke s.m_pts 0).drop
            (if loop.isFreehand = true then 1 else 0)).map stamp ++
              IntertwineAsLines.closedShape loop stroke
          state := some
            { m_lastPointPrinted := s.m_lastPointPrinted.set 0
                (Stroke.idx (joinSegments walk stroke s.m_pts 0)
                  ((joinSegments walk stroke s.m_pts 0).length - 1))
              m_pts := [] } }).calls =
        ((joinSegments walk stroke s.m_pts 0).drop 1).map stamp := by
    intro hf
    rw [closedShape_freehand loop stroke hf]
    split <;> simp [hf]
  refine ⟨hfree, ?_, ?_⟩
  · intro hf hpts
    rw [hfree hf, hpts]
  · intro hf
    split
    · simp [hf, filter_isPoint_map_stamp]
    · simp only [hf, Bool.false_eq_true, if_false, List.drop_zero, List.filter_append,
        closedShape_filter_isPoint, List.append_nil, filter_isPoint_map_stamp]

theorem c7_continuation_example :
    (IntertwineAsLines.joinStroke sampleLineWalk freehandLoop
      { m_lastPointPrinted := [], m_pts := [] } [⟨0, 0⟩]).state =
      some { m_lastPointPrinted := [⟨0, 0⟩], m_pts := [] } ∧
    (IntertwineAsLines.joinStroke sampleLineWalk freehandLoop
      { m_lastPointPrinted := [⟨0, 0⟩], m_pts := [] } [⟨0, 0⟩, ⟨5, 0⟩]).state =
      some { m_lastPointPrinted := [⟨5, 0⟩], m_pts := [] } ∧
    (IntertwineAsLines.joinStroke sampleLineWalk freehandLoop
      { m_lastPointPrinted := [⟨5, 0⟩], m_pts := [] } [⟨0, 0⟩, ⟨5, 0⟩, ⟨5, 5⟩]).calls =
      [stamp ⟨1, 0⟩, stamp ⟨2, 0⟩, stamp ⟨3, 0⟩, stamp ⟨4, 0⟩, stamp ⟨5, 0⟩,
        stamp ⟨5, 1⟩, stamp ⟨5, 2⟩, stamp ⟨5, 3⟩, stamp ⟨5, 4⟩, stamp ⟨5, 5⟩] ∧
    stamp ⟨0, 0⟩ ∉ (IntertwineAsLines.joinStroke sampleLineWalk freehandLoop
      { m_lastPointPrinted := [⟨5, 0⟩], m_pts := [] } [⟨0, 0⟩, ⟨5, 0⟩, ⟨5, 5⟩]).calls ∧
    joinSegments sampleLineWalk [⟨0, 0⟩, ⟨5, 0⟩, ⟨5, 5⟩] [] 0 =
      [⟨0, 0⟩, ⟨1, 0⟩, ⟨2, 0⟩, ⟨3, 0⟩, ⟨4, 0⟩, ⟨5, 0⟩,
        ⟨5, 1⟩, ⟨5, 2⟩, ⟨5, 3⟩, ⟨5, 4⟩, ⟨5, 5⟩] ∧
    (IntertwineAsLines.joinStroke sampleLineWalk shapeLoop
      { m_lastPointPrinted := [⟨1, 0⟩], m_pts := [] }
      [⟨0, 0⟩, ⟨2, 0⟩]).calls.filter Call.isPoint =
      [stamp ⟨0, 0⟩, stamp ⟨1, 0⟩, stamp ⟨2, 0⟩] := by
  have hcalls := ((c7_asLines_freehand_skips_first_point sampleLineWalk freehandLoop
      { m_lastPointPrinted := [⟨5, 0⟩], m_pts := [] } [⟨0, 0⟩, ⟨5, 0⟩, ⟨5, 5⟩]
      (by decide) (by decide)).2.1 rfl rfl).trans
      (show ((joinSegments sampleLineWalk [⟨0, 0⟩, ⟨5, 0⟩, ⟨5, 5⟩] [] 0).drop 1).map stamp =
        [stamp ⟨1, 0⟩, stamp ⟨2, 0⟩, stamp ⟨3, 0⟩, stamp ⟨4, 0⟩, stamp ⟨5, 0⟩,
          stamp ⟨5, 1⟩, stamp ⟨5, 2⟩, stamp ⟨5, 3⟩, stamp ⟨5, 4⟩, stamp ⟨5, 5⟩] by
        rw [joinSegments_eq _ _ _ 0 _ rfl]; decide)
  refine ⟨rfl, ?_, hcalls, ?_, ?_, ?_⟩
  · rw [asLines_join_multi _ _ _ _ (by decide) (by decide), joinSegments_eq _ _ _ 0 _ rfl]
    decide
  · rw [hcalls]
    decide
  · rw [joinSegments_eq _ _ _ 0 _ rfl]
    decide
  · exact ((c7_asLines_freehand_skips_first_point sampleLineWalk shapeLoop
      { m_lastPointPrinted := [⟨1, 0⟩], m_pts := [] } [⟨0, 0⟩, ⟨2, 0⟩]
      (by decide) (by decide)).2.2 rfl).trans
      (by rw [joinSegments_eq _ _ _ 0 _ rfl]; decide)

/-- The tap branch of IntertwineAsLines::joinStroke (lines 91-103, then 128 and
the tail 131-141) on the stroke [p, p]. -/
theorem asLines_join_tap (walk : Int → Int → Int → Int → List Point) (loop : ToolLoop)
    (s : AsLinesState) (p : Point) :
    IntertwineAsLines.joinStroke walk loop s [p, p] =
      if s.m_lastPointPrinted = [] ∨ Stroke.idx s.m_lastPointPrinted 0 ≠ p ∨
          loop.tracePolicy = TracePolicy.Last then
        { calls := [stamp p], state := some { s with m_lastPointPrinted := [p, p] } }
      else
        { calls := if loop.filled = true ∧ loop.isFreehand = false then
            [Call.doPointshapeLine p.x p.y p.x p.y] else []
          state := some { s with m_pts := [] } } := by
  unfold IntertwineAsLines.joinStroke IntertwineAsLines.saveLastPointAndDoPointshape
    IntertwineAsLines.closedShape
  have hidx0 : Stroke.idx [p, p] 0 = p := rfl
  have hidx1 : Stroke.idx [p, p] 1 = p := rfl
  simp only [List.length_cons, List.length_nil, hidx0, hidx1]
  rw [if_neg (by omega), if_neg (by omega), if_pos (by omega), if_pos ⟨trivial, trivial⟩]
  by_cases h1 : s.m_lastPointPrinted = []
  · rw [if_pos (by simp [h1]), if_pos (Or.inl h1)]
    rfl
  · have h1e : ¬ s.m_lastPointPrinted.isEmpty = true := by simpa using h1
    rw [if_neg h1e]
    by_cases h2 : Stroke.idx s.m_lastPointPrinted 0 ≠ p ∨ loop.tracePolicy = TracePolicy.Last
    · rw [if_pos h2, if_pos (Or.inr h2)]
      rfl
    · have h3 : ¬ (s.m_lastPointPrinted = [] ∨ Stroke.idx s.m_lastPointPrinted 0 ≠ p ∨
          loop.tracePolicy = TracePolicy.Last) := by
        rintro (h | h)
        · exact h1 h
        · exact h2 h
      rw [if_neg h2, if_neg h3]
      cases hf : loop.filled <;> cases hh : loop.isFreehand <;> simp

/-- C8, the claim as stated fails: with a filled shape and a controller that is
not freehand, a tap [p, p] on the cached point under trace policy Accumulate is
suppressed as a point stamp but the call still emits a stamp, the closing line
from p to p. -/
theorem c8_suppressed_tap_still_stamps_closing_line :
    shapeLoop.tracePolicy = TracePolicy.Accumulate ∧
    (IntertwineAsLines.joinStroke sampleLineWalk shapeLoop
      { m_lastPointPrinted := [⟨0, 0⟩], m_pts := [] } [⟨0, 0⟩, ⟨0, 0⟩]).calls =
      [Call.doPointshapeLine 0 0 0 0] ∧
    (IntertwineAsLines.joinStroke sampleLineWalk shapeLoop
      { m_lastPointPrinted := [⟨0, 0⟩], m_pts := [] } [⟨0, 0⟩, ⟨0, 0⟩]).calls ≠ [] := by
  rw [asLines_join_tap]
  decide

/-- C8, amended: on a stroke [p, p] IntertwineAsLines::joinStroke records the
stroke as last emitted (so that m_lastPointPrinted[0] is p) and emits exactly
stamp-point(p) if and only if the cache is empty, or its first point differs
from p, or the trace policy is Last.  Otherwise the tap is suppressed: no point
is stamped and the cache is unchanged; the only call then is the closing line
from p to p, made exactly when the filled flag is set and the controller is not
freehand. -/
theorem c8_asLines_tap (walk : Int → Int → Int → Int → List Point) (loop : ToolLoop)
    (s : AsLinesState) (p : Point) :
    (IntertwineAsLines.joinStroke walk loop s [p, p] =
      if s.m_lastPointPrinted = [] ∨ Stroke.idx s.m_lastPointPrinted 0 ≠ p ∨
          loop.tracePolicy = TracePolicy.Last then
        { calls := [stamp p], state := some { s with m_lastPointPrinted := [p, p] } }
      else
        { calls := if loop.filled = true ∧ loop.isFreehand = false then
            [Call.doPointshapeLine p.x p.y p.x p.y] else []
          state := some { s with m_pts := [] } }) ∧
    (stamp p ∈ (IntertwineAsLines.joinStroke walk loop s [p, p]).calls ↔
      (s.m_lastPointPrinted = [] ∨ Stroke.idx s.m_lastPointPrinted 0 ≠ p ∨
        loop.tracePolicy = TracePolicy.Last)) ∧
    ((IntertwineAsLines.joinStroke walk loop s [p, p]).calls.filter Call.isPoint =
      if s.m_lastPointPrinted = [] ∨ Stroke.idx s.m_lastPointPrinted 0 ≠ p ∨
          loop.tracePolicy = TracePolicy.Last then [stamp p] else []) ∧
    Stroke.idx ({ s with m_lastPointPrinted := [p, p] } : AsLinesState).m_lastPointPrinted 0
      = p := by
  refine ⟨asLines_join_tap walk loop s p, ?_, ?_, rfl⟩
  · rw [asLines_join_tap]
    split
    · rename_i h
      simpa using h
    · rename_i h
      simp only [h, iff_false]
      split <;> simp [stamp]
  · rw [asLines_join_tap]
    split
    · simp [stamp, Call.isPoint]
    · split <;> simp [Call.isPoint]

/-! ## IntertwineFirstPoint -/

theorem accumulate_from (stroke : Stroke) (acc : Point × Int) :
    stroke.foldl (fun acc pt => ((⟨acc.1.x + pt.x, acc.1.y + pt.y⟩ : Point), acc.2 + 1)) acc =
      (⟨acc.1.x + (stroke.map (fun p => p.x)).sum, acc.1.y + (stroke.map (fun p => p.y)).sum⟩,
        acc.2 + (stroke.length : Int)) := by
  induction stroke generalizing acc with
  | nil => simp
  | cons p ps ih =>
    rw [List.foldl_cons, ih]
    simp only [List.map_cons, List.sum_cons, List.length_cons, Nat.cast_succ]
    congr 1
    · congr 1 <;> ring
    · ring

theorem accumulate_eq (stroke : Stroke) :
    IntertwineFirstPoint.accumulate stroke =
      (⟨(stroke.map (fun p => p.x)).sum, (stroke.map (fun p => p.y)).sum⟩,
        (stroke.length : Int)) := by
  unfold IntertwineFirstPoint.accumulate
  rw [accumulate_from]
  simp

/-- C9: for a non-empty stroke of n points IntertwineFirstPoint::joinStroke
makes exactly one call, a point stamp: at (sum of x / n, sum of y / n), the
division truncating toward zero, when the controller is in two-point mode and
the from-center modifier is set, and at the first point of the stroke otherwise.
For the empty stroke it makes no call. -/
theorem c9_firstPoint_single_stamp (loop : ToolLoop) (stroke : Stroke) (hne : stroke ≠ []) :
    IntertwineFirstPoint.joinStroke loop stroke =
      [stamp (if loop.isTwoPoints = true ∧ loop.fromCenter = true then
        ⟨Int.tdiv (stroke.map (fun p => p.x)).sum stroke.length,
          Int.tdiv (stroke.map (fun p => p.y)).sum stroke.length⟩
        else stroke.head hne)] ∧
    IntertwineFirstPoint.joinStroke loop [] = [] := by
  refine ⟨?_, rfl⟩
  unfold IntertwineFirstPoint.joinStroke
  have hemp : ¬ stroke.isEmpty = true := by simpa using hne
  rw [if_neg hemp]
  by_cases h : loop.isTwoPoints = true ∧ loop.fromCenter = true
  · rw [if_pos h]
    simp only [h.1, h.2, Bool.and_self, if_true, accumulate_eq]
    rfl
  · rw [if_neg h]
    have hb : ¬ (loop.isTwoPoints && loop.fromCenter) = true := by
      simpa [Bool.and_eq_true] using h
    simp only [hb, if_false]
    cases stroke with
    | nil => exact absurd rfl hne
    | cons p ps => rfl

theorem c9_center_truncates_toward_zero :
    IntertwineFirstPoint.joinStroke centeredLoop [⟨-1, 0⟩, ⟨0, 0⟩] =
      [Call.doPointshapePoint 0 0] ∧
    IntertwineFirstPoint.joinStroke shapeLoop [⟨-1, 0⟩, ⟨0, 0⟩] =
      [Call.doPointshapePoint (-1) 0] ∧
    IntertwineFirstPoint.joinStroke centeredLoop [⟨-3, 7⟩, ⟨0, 0⟩, ⟨-2, 1⟩] =
      [Call.doPointshapePoint (-1) 2] :=
  ⟨(c9_firstPoint_single_stamp centeredLoop [⟨-1, 0⟩, ⟨0, 0⟩] (by simp)).1.trans (by decide),
    (c9_firstPoint_single_stamp shapeLoop [⟨-1, 0⟩, ⟨0, 0⟩] (by simp)).1.trans (by decide),
    (c9_firstPoint_single_stamp centeredLoop [⟨-3, 7⟩, ⟨0, 0⟩, ⟨-2, 1⟩]
      (by simp)).1.trans (by decide)⟩

/-! ## IntertwineAsEllipses -/

/-- C10: whenever the shape angle is not above the threshold (ABS(angle) >
0.001 is false), for every stroke and whatever Stroke::bounds returns for it,
IntertwineAsEllipses::getStrokeBounds returns that rectangle with the same
origin and with width and height each increased by exactly 1. -/
theorem c10_ellipses_bounds_grow_by_one (bounds : Stroke → Rect) (rotatedBounds : Rect → Rect)
    (loop : ToolLoop) (stroke : Stroke) (hangle : loop.shapeAngle.absGt = false) :
    IntertwineAsEllipses.getStrokeBounds bounds rotatedBounds loop stroke =
      { x := (bounds stroke).x, y := (bounds stroke).y,
        w := (bounds stroke).w + 1, h := (bounds stroke).h + 1 } := by
  unfold IntertwineAsEllipses.getStrokeBounds
  simp only [hangle, Bool.false_eq_true, if_false]

theorem c10_bounds_example :
    IntertwineAsEllipses.getStrokeBounds Stroke.bounds id shapeLoop
      [⟨2, 5⟩, ⟨7, 3⟩] = ⟨2, 3, 7, 4⟩ ∧
    Stroke.bounds [⟨2, 5⟩, ⟨7, 3⟩] = ⟨2, 3, 6, 3⟩ ∧
    IntertwineAsEllipses.getStrokeBounds Stroke.bounds id edgeLoop
      [⟨2, 5⟩, ⟨7, 3⟩] = ⟨2, 3, 7, 4⟩ :=
  ⟨(c10_ellipses_bounds_grow_by_one Stroke.bounds id shapeLoop [⟨2, 5⟩, ⟨7, 3⟩] rfl).trans
      (by decide),
    by decide,
    (c10_ellipses_bounds_grow_by_one Stroke.bounds id edgeLoop [⟨2, 5⟩, ⟨7, 3⟩] rfl).trans
      (by decide)⟩


/-! ## IntertwineAsPixelPerfect: retained state -/

/-- IntertwineAsPixelPerfect::joinStroke under trace policy Last. -/
theorem pixelPerfect_join_last (walk : Int → Int → Int → Int → List Point) (loop : ToolLoop)
    (s : PixelPerfectState) (stroke : Stroke) (hpol : loop.tracePolicy = TracePolicy.Last) :
    IntertwineAsPixelPerfect.joinStroke walk loop s stroke =
      if stroke.length = 0 then
        { calls := [], state := { m_retainedTracePolicyLast := true, m_pts := [] } }
      else if stroke.length = 1 then
        { calls := [stamp (Stroke.idx stroke 0)]
          state := { m_retainedTracePolicyLast := true, m_pts := stroke } }
      else
        { calls := IntertwineAsPixelPerfect.stampLoop true (joinSegments walk stroke [] 0) 0
          state := { m_retainedTracePolicyLast := true
                     m_pts := joinSegments walk stroke [] 0 } } := by
  unfold IntertwineAsPixelPerfect.joinStroke
  simp only [hpol, if_true]
  split
  · rfl
  · split
    · rfl
    · rfl

/-- IntertwineAsPixelPerfect::joinStroke under trace policy Accumulate. -/
theorem pixelPerfect_join_accumulate (walk : Int → Int → Int → Int → List Point)
    (loop : ToolLoop) (s : PixelPerfectState) (stroke : Stroke)
    (hpol : loop.tracePolicy = TracePolicy.Accumulate) :
    IntertwineAsPixelPerfect.joinStroke walk loop s stroke =
      if stroke.length = 0 then
        { calls := [], state := s }
      else if stroke.length = 1 then
        { calls := [stamp (Stroke.idx stroke 0)]
          state := if s.m_pts = [] then { s with m_pts := stroke } else s }
      else
        { calls := IntertwineAsPixelPerfect.stampLoop s.m_retainedTracePolicyLast
            (joinSegments walk stroke s.m_pts 0) 0
          state := { s with m_pts := joinSegments walk stroke s.m_pts 0 } } := by
  unfold IntertwineAsPixelPerfect.joinStroke
  have hne : ¬ (TracePolicy.Accumulate = TracePolicy.Last) := by decide
  simp only [hpol, hne, if_false]
  by_cases h0 : stroke.length = 0
  · rw [if_pos h0, if_pos h0]
  · rw [if_neg h0, if_neg h0]
    by_cases h1 : stroke.length = 1
    · rw [if_pos h1, if_pos h1]
      by_cases h : s.m_pts = []
      · simp [h, stamp]
      · simp [h, stamp]
    · rw [if_neg h1, if_neg h1]

theorem feedPoints_extends (pts : List Point) (B : Stroke) :
    ∃ ext, feedPoints pts B = B ++ ext := by
  induction pts generalizing B with
  | nil => exact ⟨[], by simp [feedPoints]⟩
  | cons p pts ih =>
    obtain ⟨e, he⟩ := ih (addPointsWithoutDuplicatingLastOne p.x p.y B)
    have hstep : feedPoints (p :: pts) B =
        feedPoints pts (addPointsWithoutDuplicatingLastOne p.x p.y B) := rfl
    rw [hstep, he, addPoints_eq]
    split
    · exact ⟨e, rfl⟩
    · exact ⟨⟨p.x, p.y⟩ :: e, by simp⟩

theorem joinSegments_extends (walk : Int → Int → Int → Int → List Point) (stroke : Stroke)
    (c : Nat) (B : Stroke) : ∃ ext, joinSegments walk stroke B c = B ++ ext := by
  rw [joinSegments_eq walk stroke _ c B rfl]
  induction (stroke.drop c).zip (stroke.drop (c + 1)) generalizing B with
  | nil => exact ⟨[], by simp⟩
  | cons pq l ih =>
    obtain ⟨e1, h1⟩ := feedPoints_extends (walk pq.1.x pq.1.y pq.2.x pq.2.y) B
    obtain ⟨e2, h2⟩ := ih (lineInto walk pq.1.x pq.1.y pq.2.x pq.2.y B)
    refine ⟨e1 ++ e2, ?_⟩
    rw [List.foldl_cons, h2]
    unfold lineInto
    rw [h1, List.append_assoc]

theorem mem_feedPoints (pts : List Point) (B : Stroke) (p : Point)
    (h : p ∈ feedPoints pts B) : p ∈ B ∨ p ∈ pts := by
  induction pts generalizing B with
  | nil => exact Or.inl h
  | cons q pts ih =>
    have hstep : feedPoints (q :: pts) B =
        feedPoints pts (addPointsWithoutDuplicatingLastOne q.x q.y B) := rfl
    rw [hstep] at h
    rcases ih _ h with h1 | h1
    · rw [addPoints_eq] at h1
      split at h1
      · exact Or.inl h1
      · rcases List.mem_append.mp h1 with h2 | h2
        · exact Or.inl h2
        · right
          simp only [List.mem_singleton] at h2
          rw [h2]
          exact List.mem_cons_self _ _
    · exact Or.inr (List.mem_cons_of_mem _ h1)

theorem mem_foldl_lineInto (walk : Int → Int → Int → Int → List Point)
    (l : List (Point × Point)) (B : Stroke) (p : Point)
    (h : p ∈ l.foldl (fun b pq => lineInto walk pq.1.x pq.1.y pq.2.x pq.2.y b) B) :
    p ∈ B ∨ ∃ pq ∈ l, p ∈ walk pq.1.x pq.1.y pq.2.x pq.2.y := by
  induction l generalizing B with
  | nil => exact Or.inl h
  | cons pq l ih =>
    rw [List.foldl_cons] at h
    rcases ih _ h with h1 | ⟨pq2, hm, hp⟩
    · rcases mem_feedPoints _ _ _ h1 with h2 | h2
      · exact Or.inl h2
      · exact Or.inr ⟨pq, List.mem_cons_self _ _, h2⟩
    · exact Or.inr ⟨pq2, List.mem_cons_of_mem _ hm, hp⟩

theorem mem_joinSegments (walk : Int → Int → Int → Int → List Point) (stroke : Stroke)
    (c : Nat) (B : Stroke) (p : Point) (h : p ∈ joinSegments walk stroke B c) :
    p ∈ B ∨ ∃ pq ∈ (stroke.drop c).zip (stroke.drop (c + 1)),
      p ∈ walk pq.1.x pq.1.y pq.2.x pq.2.y := by
  rw [joinSegments_eq walk stroke _ c B rfl] at h
  exact mem_foldl_lineInto walk _ B p h


theorem stampLoop_flag_irrelevant (m_pts : Stroke) (n : Nat) :
    ∀ c, m_pts.length - c ≤ n → 1 ≤ c →
      IntertwineAsPixelPerfect.stampLoop true m_pts c =
        IntertwineAsPixelPerfect.stampLoop false m_pts c := by
  induction n with
  | zero =>
    intro c hc _
    rw [stampLoop_done true m_pts c (by omega), stampLoop_done false m_pts c (by omega)]
  | succ n ih =>
    intro c hc h1
    by_cases hlt : c < m_pts.length
    · cases hcor : IntertwineAsPixelPerfect.isCorner m_pts c
      · rw [stampLoop_plain true m_pts c hlt hcor, stampLoop_plain false m_pts c hlt hcor,
          ih (c + 1) (by omega) (by omega), if_neg (by omega), if_neg (by omega)]
      · rw [stampLoop_corner true m_pts c hlt hcor, stampLoop_corner false m_pts c hlt hcor,
          ih (c + 2) (by omega) (by omega)]
    · rw [stampLoop_done true m_pts c hlt, stampLoop_done false m_pts c hlt]

/-- The walk with the retained flag set is the walk with the flag clear without
its first call, the stamp of index 0. -/
theorem stampLoop_flag_drops_first (m_pts : Stroke) (hne : m_pts ≠ []) :
    IntertwineAsPixelPerfect.stampLoop false m_pts 0 =
      stamp (Stroke.idx m_pts 0) :: IntertwineAsPixelPerfect.stampLoop true m_pts 0 := by
  have hlt : 0 < m_pts.length := List.length_pos.mpr hne
  rw [stampLoop_plain false m_pts 0 hlt (isCorner_zero _),
    stampLoop_plain true m_pts 0 hlt (isCorner_zero _),
    stampLoop_flag_irrelevant m_pts m_pts.length 1 (by omega) le_rfl]
  simp

theorem pixelPerfect_join_flag_stays (walk : Int → Int → Int → Int → List Point)
    (loop : ToolLoop) (s : PixelPerfectState) (stroke : Stroke)
    (h : s.m_retainedTracePolicyLast = true) :
    (IntertwineAsPixelPerfect.joinStroke walk loop s stroke).state.m_retainedTracePolicyLast
      = true := by
  cases hpol : loop.tracePolicy
  · rw [pixelPerfect_join_accumulate walk loop s stroke hpol]
    split
    · exact h
    · split
      · dsimp only
        split <;> exact h
      · exact h
  · rw [pixelPerfect_join_last walk loop s stroke hpol]
    split
    · rfl
    · split <;> rfl

theorem pixelPerfect_call_flag_stays (walk : Int → Int → Int → Int → List Point)
    (s : PixelPerfectState) (c : StrategyCall) (h : s.m_retainedTracePolicyLast = true) :
    (IntertwineAsPixelPerfect.call walk s c).state.m_retainedTracePolicyLast = true := by
  cases c with
  | joinStroke loop stroke => exact pixelPerfect_join_flag_stays walk loop s stroke h
  | fillStroke loop stroke =>
    unfold IntertwineAsPixelPerfect.call IntertwineAsPixelPerfect.fillStroke
    dsimp only
    split
    · exact pixelPerfect_join_flag_stays walk loop s stroke h
    · split
      · exact pixelPerfect_join_flag_stays walk loop s stroke h
      · exact h

theorem pixelPerfect_session_flag_stays (walk : Int → Int → Int → Int → List Point)
    (calls : List StrategyCall) (s : PixelPerfectState)
    (h : s.m_retainedTracePolicyLast = true) :
    (IntertwineAsPixelPerfect.session walk s calls).m_retainedTracePolicyLast = true := by
  induction calls generalizing s with
  | nil => exact h
  | cons c cs ih => exact ih _ (pixelPerfect_call_flag_stays walk s c h)


/-! ## IntertwineAsPixelPerfect: which indices the walk stamps -/

theorem elided_of_corner (m_pts : Stroke) (c : Nat)
    (hhead : c = 0 ∨ elided m_pts (c - 1) = false)
    (hcor : IntertwineAsPixelPerfect.isCorner m_pts c = true) : elided m_pts c = true := by
  cases c with
  | zero => rw [isCorner_zero] at hcor; cases hcor
  | succ i =>
    have hprev : elided m_pts i = false := by
      rcases hhead with h | h
      · omega
      · simpa using h
    simp [elided, hcor, hprev]

theorem not_elided_of_not_corner (m_pts : Stroke) (c : Nat)
    (hcor : IntertwineAsPixelPerfect.isCorner m_pts c = false) : elided m_pts c = false := by
  cases c with
  | zero => rfl
  | succ i => simp [elided, hcor]

theorem not_elided_after_elided (m_pts : Stroke) (i : Nat) (h : elided m_pts i = true) :
    elided m_pts (i + 1) = false := by
  simp [elided, h]

theorem stampLoop_eq_stamped_from (flag : Bool) (m_pts : Stroke) (n : Nat) :
    ∀ c, m_pts.length - c ≤ n → (c = 0 ∨ elided m_pts (c - 1) = false) →
      IntertwineAsPixelPerfect.stampLoop flag m_pts c =
        ((List.range' c (m_pts.length - c)).filter (stamped flag m_pts)).map
          (fun i => stamp (Stroke.idx m_pts i)) := by
  induction n using Nat.strong_induction_on with
  | _ n ih =>
    intro c hc hhead
    by_cases hlt : c < m_pts.length
    · have hr : m_pts.length - c = (m_pts.length - c - 1) + 1 := by omega
      cases hcor : IntertwineAsPixelPerfect.isCorner m_pts c
      · have hne := not_elided_of_not_corner m_pts c hcor
        rw [stampLoop_plain flag m_pts c hlt hcor,
          ih (n - 1) (by omega) (c + 1) (by omega) (Or.inr (by simpa using hne)),
          hr, List.range'_succ]
        have hr2 : m_pts.length - (c + 1) = m_pts.length - c - 1 := by omega
        rw [hr2]
        by_cases h0 : c = 0 ∧ flag = true
        · have hs : stamped flag m_pts c = false := by
            simp [stamped, hne, h0.1, h0.2]
          rw [if_pos h0, List.filter_cons_of_neg (by simp [hs])]
          rfl
        · have hs : stamped flag m_pts c = true := by
            simp only [stamped, hne, Bool.not_false, Bool.true_and, Bool.not_eq_true',
              Bool.and_eq_false_iff, decide_eq_false_iff_not]
            by_cases hc0 : c = 0
            · right
              cases hf : flag
              · rfl
              · exact absurd ⟨hc0, hf⟩ h0
            · exact Or.inl hc0
          rw [if_neg h0, List.filter_cons_of_pos (by simp [hs])]
          rfl
      · have hc1 : c + 1 < m_pts.length := by
          simp only [IntertwineAsPixelPerfect.isCorner, Bool.and_eq_true,
            decide_eq_true_eq] at hcor
          exact hcor.1.1.1.1.2
        have hel := elided_of_corner m_pts c hhead hcor
        have hnext := not_elided_after_elided m_pts c hel
        have hs : stamped flag m_pts c = false := by simp [stamped, hel]
        have hs1 : stamped flag m_pts (c + 1) = true := by simp [stamped, hnext]
        have hr3 : m_pts.length - c - 1 = (m_pts.length - c - 2) + 1 := by omega
        rw [stampLoop_corner flag m_pts c hlt hcor,
          ih (n - 2) (by omega) (c + 2) (by omega) (Or.inr (by simpa using hnext)),
          hr, List.range'_succ, List.filter_cons_of_neg (by simp [hs]),
          hr3, List.range'_succ, List.filter_cons_of_pos (by simp [hs1])]
        have hr4 : m_pts.length - (c + 2) = m_pts.length - c - 2 := by omega
        rw [hr4]
        rfl
    · rw [stampLoop_done flag m_pts c hlt]
      have hz : m_pts.length - c = 0 := by omega
      rw [hz]
      rfl

/-- The calls of the walk are the stamps of the buffer points at the stamped
indices, in increasing index order. -/
theorem stampLoop_eq_stamped (flag : Bool) (m_pts : Stroke) :
    IntertwineAsPixelPerfect.stampLoop flag m_pts 0 =
      ((List.range m_pts.length).filter (stamped flag m_pts)).map
        (fun i => stamp (Stroke.idx m_pts i)) := by
  rw [stampLoop_eq_stamped_from flag m_pts m_pts.length 0 (by omega) (Or.inl rfl),
    List.range_eq_range']
  rfl


theorem range_map_idx (m_pts : Stroke) :
    (List.range m_pts.length).map (fun i => Stroke.idx m_pts i) = m_pts := by
  apply List.ext_getElem (by simp)
  intro i h1 h2
  simp [Stroke.idx, List.getD_eq_getElem?_getD, List.getElem?_eq_getElem h2]

theorem isCorner_interior (m_pts : Stroke) (i : Nat) (h : i + 2 < m_pts.length) :
    IntertwineAsPixelPerfect.isCorner m_pts (i + 1) = true ↔
      innerCorner (Stroke.idx m_pts i) (Stroke.idx m_pts (i + 1)) (Stroke.idx m_pts (i + 2)) := by
  simp only [IntertwineAsPixelPerfect.isCorner, innerCorner, Bool.and_eq_true, Bool.or_eq_true,
    decide_eq_true_eq, Nat.add_sub_cancel]
  constructor
  · rintro ⟨⟨⟨⟨⟨_, _⟩, h1⟩, h2⟩, h3⟩, h4⟩
    exact ⟨h1, h2, h3, h4⟩
  · rintro ⟨h1, h2, h3, h4⟩
    exact ⟨⟨⟨⟨⟨by omega, by omega⟩, h1⟩, h2⟩, h3⟩, h4⟩

/-- C19: for a buffer m_pts of at least two points the calls of the stamping walk
(lines 461-479) are the stamps of the buffer points at the stamped indices, in
increasing index order, hence a subsequence of the stamps of m_pts in buffer
order.  (a) The last index is always stamped.  (b) Index 0 is stamped exactly
when the retained flag is false.  (c) No two adjacent indices are both elided,
and an interior index i+1 is not stamped if and only if its point is an inner
corner between its two neighbours and index i was not itself elided. -/
theorem c19_walk_stamps_subsequence (flag : Bool) (m_pts : Stroke) (hlen : 2 ≤ m_pts.length) :
    IntertwineAsPixelPerfect.stampLoop flag m_pts 0 =
      ((List.range m_pts.length).filter (stamped flag m_pts)).map
        (fun i => stamp (Stroke.idx m_pts i)) ∧
    (IntertwineAsPixelPerfect.stampLoop flag m_pts 0).Sublist (m_pts.map stamp) ∧
    stamped flag m_pts (m_pts.length - 1) = true ∧
    (stamped flag m_pts 0 = true ↔ flag = false) ∧
    (∀ i, elided m_pts i = true → elided m_pts (i + 1) = false) ∧
    (∀ i, i + 2 < m_pts.length →
      (stamped flag m_pts (i + 1) = false ↔
        (innerCorner (Stroke.idx m_pts i) (Stroke.idx m_pts (i + 1)) (Stroke.idx m_pts (i + 2)) ∧
          elided m_pts i = false))) := by
  refine ⟨stampLoop_eq_stamped flag m_pts, ?_, ?_, ?_, not_elided_after_elided m_pts, ?_⟩
  · rw [stampLoop_eq_stamped]
    have hall : m_pts.map stamp =
        (List.range m_pts.length).map (fun i => stamp (Stroke.idx m_pts i)) := by
      conv_lhs => rw [← range_map_idx m_pts]
      rw [List.map_map]
      rfl
    rw [hall]
    exact List.Sublist.map _ (List.filter_sublist _)
  · have hne := not_elided_of_not_corner m_pts (m_pts.length - 1)
      (isCorner_last m_pts _ (by omega))
    have h0 : ¬ m_pts.length - 1 = 0 := by omega
    simp [stamped, hne, h0]
  · cases flag <;> simp [stamped, elided]
  · intro i hi
    have hs : stamped flag m_pts (i + 1) = !elided m_pts (i + 1) := by
      simp [stamped]
    rw [hs, ← isCorner_interior m_pts i hi]
    simp [elided]

theorem c19_staircase_example :
    IntertwineAsPixelPerfect.stampLoop false [⟨0, 0⟩, ⟨1, 0⟩, ⟨1, 1⟩, ⟨2, 1⟩] 0 =
      [stamp ⟨0, 0⟩, stamp ⟨1, 1⟩, stamp ⟨2, 1⟩] ∧
    IntertwineAsPixelPerfect.stampLoop true [⟨0, 0⟩, ⟨1, 0⟩, ⟨1, 1⟩, ⟨2, 1⟩] 0 =
      [stamp ⟨1, 1⟩, stamp ⟨2, 1⟩] ∧
    IntertwineAsPixelPerfect.stampLoop true [⟨0, 0⟩, ⟨1, 0⟩, ⟨2, 0⟩, ⟨2, 1⟩, ⟨2, 2⟩] 0 =
      [stamp ⟨1, 0⟩, stamp ⟨2, 1⟩, stamp ⟨2, 2⟩] :=
  ⟨(c19_walk_stamps_subsequence false [⟨0, 0⟩, ⟨1, 0⟩, ⟨1, 1⟩, ⟨2, 1⟩] (by decide)).1.trans
      (by decide),
    (c19_walk_stamps_subsequence true [⟨0, 0⟩, ⟨1, 0⟩, ⟨1, 1⟩, ⟨2, 1⟩] (by decide)).1.trans
      (by decide),
    (c19_walk_stamps_subsequence true [⟨0, 0⟩, ⟨1, 0⟩, ⟨2, 0⟩, ⟨2, 1⟩, ⟨2, 2⟩]
      (by decide)).1.trans (by decide)⟩


/-! ## Reset -/

/-- C11: calling the reset operation twice in a row gives the same state as
calling it once, for IntertwineAsPixelPerfect (which overrides it), for
IntertwineAsLines and for any strategy that inherits the default.  For
IntertwineAsPixelPerfect the state after reset is the initial one (m_pts empty,
retained flag false) whatever the state before and whatever calls preceded it,
so a joinStroke after reset gives what it gives on a new object. -/
theorem c11_reset_twice_is_reset_once {σ : Type} (u : σ)
    (walk : Int → Int → Int → Int → List Point) (loop : ToolLoop) (stroke : Stroke)
    (s : PixelPerfectState) (t : AsLinesState) (calls : List StrategyCall) :
    IntertwineAsPixelPerfect.prepareIntertwine (IntertwineAsPixelPerfect.prepareIntertwine s) =
      IntertwineAsPixelPerfect.prepareIntertwine s ∧
    IntertwineAsPixelPerfect.prepareIntertwine s = PixelPerfectState.init ∧
    IntertwineAsPixelPerfect.prepareIntertwine
      (IntertwineAsPixelPerfect.session walk s calls) = PixelPerfectState.init ∧
    IntertwineAsPixelPerfect.joinStroke walk loop
      (IntertwineAsPixelPerfect.prepareIntertwine
        (IntertwineAsPixelPerfect.session walk s calls)) stroke =
      IntertwineAsPixelPerfect.joinStroke walk loop PixelPerfectState.init stroke ∧
    IntertwineAsLines.prepareIntertwine (IntertwineAsLines.prepareIntertwine t) =
      IntertwineAsLines.prepareIntertwine t ∧
    Intertwine.prepareIntertwine (Intertwine.prepareIntertwine u) =
      Intertwine.prepareIntertwine u :=
  ⟨rfl, rfl, rfl, rfl, rfl, rfl⟩

theorem c11_reset_after_session_example :
    (IntertwineAsPixelPerfect.joinStroke sampleLineWalk lastLoop PixelPerfectState.init
      [⟨0, 0⟩, ⟨2, 0⟩]).state =
      { m_retainedTracePolicyLast := true, m_pts := [⟨0, 0⟩, ⟨1, 0⟩, ⟨2, 0⟩] } ∧
    IntertwineAsPixelPerfect.prepareIntertwine
      (IntertwineAsPixelPerfect.session sampleLineWalk PixelPerfectState.init
        [StrategyCall.joinStroke lastLoop [⟨0, 0⟩, ⟨2, 0⟩]]) = PixelPerfectState.init :=
  ⟨by rw [pixelPerfect_join_last _ _ _ _ rfl, joinSegments_eq _ _ _ 0 _ rfl]; decide,
    (c11_reset_twice_is_reset_once () sampleLineWalk lastLoop [] PixelPerfectState.init
      AsLinesState.init [StrategyCall.joinStroke lastLoop [⟨0, 0⟩, ⟨2, 0⟩]]).2.2.1⟩

/-! ## IntertwineAsPixelPerfect under trace policy Last -/

/-- C16: under trace policy Last IntertwineAsPixelPerfect::joinStroke gives the
same calls and the same retained state from any two prior states: both depend
only on the stroke.  Afterwards the flag is true, and m_pts is empty for an
empty stroke, the stroke itself for a one-point stroke, and otherwise the line
walks of this stroke fed into an empty buffer, so that each of its points is a
point of the stroke or of the walk of one of its consecutive pairs. -/
theorem c16_last_policy_is_fresh_start (walk : Int → Int → Int → Int → List Point)
    (loop : ToolLoop) (s t : PixelPerfectState) (stroke : Stroke) (p : Point)
    (hpol : loop.tracePolicy = TracePolicy.Last) :
    IntertwineAsPixelPerfect.joinStroke walk loop s stroke =
      IntertwineAsPixelPerfect.joinStroke walk loop t stroke ∧
    (IntertwineAsPixelPerfect.joinStroke walk loop s stroke).state.m_retainedTracePolicyLast
      = true ∧
    (IntertwineAsPixelPerfect.joinStroke walk loop s stroke).state.m_pts =
      (if stroke.length = 0 then [] else if stroke.length = 1 then stroke
        else joinSegments walk stroke [] 0) ∧
    (p ∈ (IntertwineAsPixelPerfect.joinStroke walk loop s stroke).state.m_pts →
      p ∈ stroke ∨ ∃ pq ∈ consecutivePairs stroke, p ∈ walk pq.1.x pq.1.y pq.2.x pq.2.y) := by
  have hs := pixelPerfect_join_last walk loop s stroke hpol
  have ht := pixelPerfect_join_last walk loop t stroke hpol
  have hpts : (IntertwineAsPixelPerfect.joinStroke walk loop s stroke).state.m_pts =
      (if stroke.length = 0 then [] else if stroke.length = 1 then stroke
        else joinSegments walk stroke [] 0) := by
    rw [hs]
    split
    · rfl
    · split <;> rfl
  refine ⟨hs.trans ht.symm, ?_, hpts, ?_⟩
  · rw [hs]
    split
    · rfl
    · split <;> rfl
  · rw [hpts]
    intro hp
    split at hp
    · cases hp
    · split at hp
      · exact Or.inl hp
      · rcases mem_joinSegments walk stroke 0 [] p hp with h | h
        · cases h
        · rw [consecutivePairs_eq] at h
          exact Or.inr h

theorem c16_fresh_start_example :
    (IntertwineAsPixelPerfect.joinStroke sampleLineWalk lastLoop
      { m_retainedTracePolicyLast := false, m_pts := [⟨9, 9⟩, ⟨8, 8⟩] } [⟨0, 0⟩, ⟨2, 0⟩]) =
      (IntertwineAsPixelPerfect.joinStroke sampleLineWalk lastLoop PixelPerfectState.init
        [⟨0, 0⟩, ⟨2, 0⟩]) ∧
    (IntertwineAsPixelPerfect.joinStroke sampleLineWalk lastLoop
      { m_retainedTracePolicyLast := false, m_pts := [⟨9, 9⟩, ⟨8, 8⟩] }
      [⟨0, 0⟩, ⟨2, 0⟩]).state.m_pts = [⟨0, 0⟩, ⟨1, 0⟩, ⟨2, 0⟩] :=
  ⟨(c16_last_policy_is_fresh_start sampleLineWalk lastLoop
      { m_retainedTracePolicyLast := false, m_pts := [⟨9, 9⟩, ⟨8, 8⟩] }
      PixelPerfectState.init [⟨0, 0⟩, ⟨2, 0⟩] ⟨0, 0⟩ rfl).1,
    (c16_last_policy_is_fresh_start sampleLineWalk lastLoop
      { m_retainedTracePolicyLast := false, m_pts := [⟨9, 9⟩, ⟨8, 8⟩] }
      PixelPerfectState.init [⟨0, 0⟩, ⟨2, 0⟩] ⟨0, 0⟩ rfl).2.2.1.trans
      (by rw [joinSegments_eq _ _ _ 0 _ rfl]; decide)⟩


/-! ## IntertwineAsPixelPerfect: the retained flag after a Last-policy call -/

theorem pixelPerfect_flag_after_last (walk : Int → Int → Int → Int → List Point)
    (loop : ToolLoop) (s : PixelPerfectState) (stroke : Stroke)
    (hpol : loop.tracePolicy = TracePolicy.Last) :
    (IntertwineAsPixelPerfect.joinStroke walk loop s stroke).state.m_retainedTracePolicyLast
      = true := by
  rw [pixelPerfect_join_last walk loop s stroke hpol]
  split
  · rfl
  · split <;> rfl

/-- C13, the claim as stated fails: after a joinStroke under trace policy Last
on (0,0)-(2,0), a joinStroke under Accumulate on (2,0)-(4,0) walks the buffer
(0,0),(1,0),(2,0),(3,0),(4,0) with the flag still set and does not stamp its
first point (0,0). -/
theorem c13_flag_still_suppresses_first_point :
    (IntertwineAsPixelPerfect.joinStroke sampleLineWalk freehandLoop
      (IntertwineAsPixelPerfect.joinStroke sampleLineWalk lastLoop PixelPerfectState.init
        [⟨0, 0⟩, ⟨2, 0⟩]).state [⟨2, 0⟩, ⟨4, 0⟩]).state.m_pts =
      [⟨0, 0⟩, ⟨1, 0⟩, ⟨2, 0⟩, ⟨3, 0⟩, ⟨4, 0⟩] ∧
    (IntertwineAsPixelPerfect.joinStroke sampleLineWalk freehandLoop
      (IntertwineAsPixelPerfect.joinStroke sampleLineWalk lastLoop PixelPerfectState.init
        [⟨0, 0⟩, ⟨2, 0⟩]).state [⟨2, 0⟩, ⟨4, 0⟩]).calls =
      [stamp ⟨1, 0⟩, stamp ⟨2, 0⟩, stamp ⟨3, 0⟩, stamp ⟨4, 0⟩] ∧
    stamp ⟨0, 0⟩ ∉ (IntertwineAsPixelPerfect.joinStroke sampleLineWalk freehandLoop
      (IntertwineAsPixelPerfect.joinStroke sampleLineWalk lastLoop PixelPerfectState.init
        [⟨0, 0⟩, ⟨2, 0⟩]).state [⟨2, 0⟩, ⟨4, 0⟩]).calls := by
  have h1 : (IntertwineAsPixelPerfect.joinStroke sampleLineWalk lastLoop PixelPerfectState.init
      [⟨0, 0⟩, ⟨2, 0⟩]).state =
      { m_retainedTracePolicyLast := true, m_pts := [⟨0, 0⟩, ⟨1, 0⟩, ⟨2, 0⟩] } := by
    rw [pixelPerfect_join_last _ _ _ _ rfl, joinSegments_eq _ _ _ 0 _ rfl]
    decide
  have h2 : joinSegments sampleLineWalk [⟨2, 0⟩, ⟨4, 0⟩] [⟨0, 0⟩, ⟨1, 0⟩, ⟨2, 0⟩] 0 =
      [⟨0, 0⟩, ⟨1, 0⟩, ⟨2, 0⟩, ⟨3, 0⟩, ⟨4, 0⟩] := by
    rw [joinSegments_eq _ _ _ 0 _ rfl]
    decide
  rw [h1, pixelPerfect_join_accumulate _ _ _ _ rfl]
  simp only [List.length_cons, List.length_nil]
  rw [if_neg (by decide), if_neg (by decide), h2, stampLoop_eq_stamped]
  decide

/-- C13, amended: the suppression of the first buffered point set off by a
joinStroke under trace policy Last lasts until reset.  After such a call the
retained flag is true and stays true through any further calls; a later
joinStroke under Accumulate on a stroke of at least two points then walks the
buffer with the flag set, so its calls are those of the walk with the flag clear
without the first one, the stamp of index 0. -/
theorem c13_suppression_lasts_until_reset (walk : Int → Int → Int → Int → List Point)
    (loopL loopA : ToolLoop) (s : PixelPerfectState) (strokeL strokeA : Stroke)
    (between : List StrategyCall)
    (hL : loopL.tracePolicy = TracePolicy.Last)
    (hA : loopA.tracePolicy = TracePolicy.Accumulate) (hlen : 2 ≤ strokeA.length) :
    (IntertwineAsPixelPerfect.session walk
      (IntertwineAsPixelPerfect.joinStroke walk loopL s strokeL).state
      between).m_retainedTracePolicyLast = true ∧
    (IntertwineAsPixelPerfect.joinStroke walk loopA
      (IntertwineAsPixelPerfect.session walk
        (IntertwineAsPixelPerfect.joinStroke walk loopL s strokeL).state between)
      strokeA).calls =
      IntertwineAsPixelPerfect.stampLoop true
        (IntertwineAsPixelPerfect.joinStroke walk loopA
          (IntertwineAsPixelPerfect.session walk
            (IntertwineAsPixelPerfect.joinStroke walk loopL s strokeL).state between)
          strokeA).state.m_pts 0 ∧
    (IntertwineAsPixelPerfect.joinStroke walk loopA
      (IntertwineAsPixelPerfect.session walk
        (IntertwineAsPixelPerfect.joinStroke walk loopL s strokeL).state between)
      strokeA).state.m_retainedTracePolicyLast = true ∧
    ((IntertwineAsPixelPerfect.joinStroke walk loopA
        (IntertwineAsPixelPerfect.session walk
          (IntertwineAsPixelPerfect.joinStroke walk loopL s strokeL).state between)
        strokeA).state.m_pts ≠ [] →
      IntertwineAsPixelPerfect.stampLoop false
        (IntertwineAsPixelPerfect.joinStroke walk loopA
          (IntertwineAsPixelPerfect.session walk
            (IntertwineAsPixelPerfect.joinStroke walk loopL s strokeL).state between)
          strokeA).state.m_pts 0 =
        stamp (Stroke.idx (IntertwineAsPixelPerfect.joinStroke walk loopA
          (IntertwineAsPixelPerfect.session walk
            (IntertwineAsPixelPerfect.joinStroke walk loopL s strokeL).state between)
          strokeA).state.m_pts 0) ::
          (IntertwineAsPixelPerfect.joinStroke walk loopA
            (IntertwineAsPixelPerfect.session walk
              (IntertwineAsPixelPerfect.joinStroke walk loopL s strokeL).state between)
            strokeA).calls) := by
  have hflagL : (IntertwineAsPixelPerfect.joinStroke walk loopL s
      strokeL).state.m_retainedTracePolicyLast = true :=
    pixelPerfect_flag_after_last walk loopL s strokeL hL
  have hflag := pixelPerfect_session_flag_stays walk between _ hflagL
  generalize IntertwineAsPixelPerfect.session walk
    (IntertwineAsPixelPerfect.joinStroke walk loopL s strokeL).state between = s1 at hflag ⊢
  have hjoin := pixelPerfect_join_multi walk loopA s1 strokeA hA hlen
  rw [hjoin, hflag]
  refine ⟨rfl, rfl, rfl, ?_⟩
  intro hne
  exact stampLoop_flag_drops_first _ hne

theorem c13_flag_kept_example :
    (IntertwineAsPixelPerfect.session sampleLineWalk
      (IntertwineAsPixelPerfect.joinStroke sampleLineWalk lastLoop PixelPerfectState.init
        [⟨0, 0⟩, ⟨2, 0⟩]).state
      [StrategyCall.joinStroke freehandLoop [⟨2, 0⟩, ⟨3, 0⟩]]).m_retainedTracePolicyLast = true ∧
    (IntertwineAsPixelPerfect.joinStroke sampleLineWalk freehandLoop
      (IntertwineAsPixelPerfect.session sampleLineWalk
        (IntertwineAsPixelPerfect.joinStroke sampleLineWalk lastLoop PixelPerfectState.init
          [⟨0, 0⟩, ⟨2, 0⟩]).state
        [StrategyCall.joinStroke freehandLoop [⟨2, 0⟩, ⟨3, 0⟩]])
      [⟨3, 0⟩, ⟨4, 0⟩]).state.m_retainedTracePolicyLast = true :=
  ⟨(c13_suppression_lasts_until_reset sampleLineWalk lastLoop freehandLoop
      PixelPerfectState.init [⟨0, 0⟩, ⟨2, 0⟩] [⟨3, 0⟩, ⟨4, 0⟩]
      [StrategyCall.joinStroke freehandLoop [⟨2, 0⟩, ⟨3, 0⟩]] rfl rfl (by decide)).1,
    (c13_suppression_lasts_until_reset sampleLineWalk lastLoop freehandLoop
      PixelPerfectState.init [⟨0, 0⟩, ⟨2, 0⟩] [⟨3, 0⟩, ⟨4, 0⟩]
      [StrategyCall.joinStroke freehandLoop [⟨2, 0⟩, ⟨3, 0⟩]] rfl rfl (by decide)).2.2.1⟩

/-! ## IntertwineAsPixelPerfect under trace policy Accumulate -/

theorem pixelPerfect_join_extends (walk : Int → Int → Int → Int → List Point)
    (loop : ToolLoop) (s : PixelPerfectState) (stroke : Stroke)
    (hpol : loop.tracePolicy = TracePolicy.Accumulate) :
    ∃ ext, (IntertwineAsPixelPerfect.joinStroke walk loop s stroke).state.m_pts =
      s.m_pts ++ ext := by
  rw [pixelPerfect_join_accumulate walk loop s stroke hpol]
  split
  · exact ⟨[], by simp⟩
  · split
    · dsimp only
      split
      · rename_i h
        exact ⟨stroke, by simp [h]⟩
      · exact ⟨[], by simp⟩
    · exact joinSegments_extends walk stroke 0 s.m_pts

theorem pixelPerfect_call_extends (walk : Int → Int → Int → Int → List Point)
    (s : PixelPerfectState) (c : StrategyCall)
    (hpol : c.loop.tracePolicy = TracePolicy.Accumulate) :
    ∃ ext, (IntertwineAsPixelPerfect.call walk s c).state.m_pts = s.m_pts ++ ext := by
  cases c with
  | joinStroke loop stroke => exact pixelPerfect_join_extends walk loop s stroke hpol
  | fillStroke loop stroke =>
    unfold IntertwineAsPixelPerfect.call IntertwineAsPixelPerfect.fillStroke
    dsimp only
    split
    · exact pixelPerfect_join_extends walk loop s stroke hpol
    · split
      · exact pixelPerfect_join_extends walk loop s stroke hpol
      · exact ⟨[], by simp⟩

theorem pixelPerfect_session_extends (walk : Int → Int → Int → Int → List Point)
    (calls : List StrategyCall) (s : PixelPerfectState)
    (hpol : ∀ c ∈ calls, c.loop.tracePolicy = TracePolicy.Accumulate) :
    ∃ ext, (IntertwineAsPixelPerfect.session walk s calls).m_pts = s.m_pts ++ ext := by
  induction calls generalizing s with
  | nil => exact ⟨[], by simp [IntertwineAsPixelPerfect.session]⟩
  | cons c cs ih =>
    obtain ⟨e1, h1⟩ := pixelPerfect_call_extends walk s c (hpol c (List.mem_cons_self _ _))
    obtain ⟨e2, h2⟩ := ih (IntertwineAsPixelPerfect.call walk s c).state
      (fun d hd => hpol d (List.mem_cons_of_mem _ hd))
    refine ⟨e1 ++ e2, ?_⟩
    have hstep : IntertwineAsPixelPerfect.session walk s (c :: cs) =
        IntertwineAsPixelPerfect.session walk (IntertwineAsPixelPerfect.call walk s c).state cs :=
      rfl
    rw [hstep, h2, h1, List.append_assoc]

/-- C20: under trace policy Accumulate IntertwineAsPixelPerfect::joinStroke never
removes or reorders buffered points: m_pts afterwards is m_pts before followed by
an extension, and the flag is unchanged.  The state is unchanged for an empty
stroke; a one-point stroke seeds m_pts with the stroke only if it was empty; for
two or more points m_pts is the buffer before extended by the deduplicated line
walks, and the calls are the walk over that whole buffer.  Through any sequence
of calls under Accumulate the buffer at the start stays the beginning of the
buffer. -/
theorem c20_accumulate_only_extends_buffer (walk : Int → Int → Int → Int → List Point)
    (loop : ToolLoop) (s : PixelPerfectState) (stroke : Stroke) (calls : List StrategyCall)
    (hpol : loop.tracePolicy = TracePolicy.Accumulate) :
    (∃ ext, (IntertwineAsPixelPerfect.joinStroke walk loop s stroke).state.m_pts =
      s.m_pts ++ ext) ∧
    (IntertwineAsPixelPerfect.joinStroke walk loop s stroke).state.m_retainedTracePolicyLast =
      s.m_retainedTracePolicyLast ∧
    (stroke.length = 0 →
      IntertwineAsPixelPerfect.joinStroke walk loop s stroke = { calls := [], state := s }) ∧
    (stroke.length = 1 →
      (IntertwineAsPixelPerfect.joinStroke walk loop s stroke).state.m_pts =
        if s.m_pts = [] then stroke else s.m_pts) ∧
    (2 ≤ stroke.length →
      (IntertwineAsPixelPerfect.joinStroke walk loop s stroke).state.m_pts =
        joinSegments walk stroke s.m_pts 0 ∧
      (∃ ext, joinSegments walk stroke s.m_pts 0 = s.m_pts ++ ext) ∧
      (IntertwineAsPixelPerfect.joinStroke walk loop s stroke).calls =
        IntertwineAsPixelPerfect.stampLoop s.m_retainedTracePolicyLast
          (joinSegments walk stroke s.m_pts 0) 0) ∧
    ((∀ c ∈ calls, c.loop.tracePolicy = TracePolicy.Accumulate) →
      ∃ ext, (IntertwineAsPixelPerfect.session walk s calls).m_pts = s.m_pts ++ ext) := by
  refine ⟨pixelPerfect_join_extends walk loop s stroke hpol, ?_, ?_, ?_, ?_,
    pixelPerfect_session_extends walk calls s⟩
  · rw [pixelPerfect_join_accumulate walk loop s stroke hpol]
    split
    · rfl
    · split
      · dsimp only
        split <;> rfl
      · rfl
  · intro h0
    rw [pixelPerfect_join_accumulate walk loop s stroke hpol, if_pos h0]
  · intro h1
    rw [pixelPerfect_join_accumulate walk loop s stroke hpol, if_neg (by omega), if_pos h1]
    dsimp only
    split <;> rfl
  · intro h2
    rw [pixelPerfect_join_multi walk loop s stroke hpol h2]
    exact ⟨rfl, joinSegments_extends walk stroke 0 s.m_pts, rfl⟩

theorem c20_buffer_growth_example :
    (IntertwineAsPixelPerfect.joinStroke sampleLineWalk freehandLoop
      { m_retainedTracePolicyLast := false, m_pts := [⟨0, 0⟩, ⟨1, 0⟩] }
      [⟨1, 0⟩, ⟨1, 2⟩]).state.m_pts = [⟨0, 0⟩, ⟨1, 0⟩, ⟨1, 1⟩, ⟨1, 2⟩] ∧
    (IntertwineAsPixelPerfect.joinStroke sampleLineWalk freehandLoop
      { m_retainedTracePolicyLast := false, m_pts := [⟨0, 0⟩, ⟨1, 0⟩] }
      [⟨1, 0⟩, ⟨1, 2⟩]).calls = [stamp ⟨0, 0⟩, stamp ⟨1, 1⟩, stamp ⟨1, 2⟩] := by
  have h := (c20_accumulate_only_extends_buffer sampleLineWalk freehandLoop
    { m_retainedTracePolicyLast := false, m_pts := [⟨0, 0⟩, ⟨1, 0⟩] } [⟨1, 0⟩, ⟨1, 2⟩] []
    rfl).2.2.2.2.1 (by decide)
  have hb : joinSegments sampleLineWalk [⟨1, 0⟩, ⟨1, 2⟩] [⟨0, 0⟩, ⟨1, 0⟩] 0 =
      [⟨0, 0⟩, ⟨1, 0⟩, ⟨1, 1⟩, ⟨1, 2⟩] := by
    rw [joinSegments_eq _ _ _ 0 _ rfl]
    decide
  refine ⟨h.1.trans hb, ?_⟩
  rw [h.2.2, hb, stampLoop_eq_stamped]
  decide


/-! ## IntertwineAsLines: branches and retained state -/

theorem asLines_join_single (walk : Int → Int → Int → Int → List Point) (loop : ToolLoop)
    (s : AsLinesState) (stroke : Stroke) (h1 : stroke.length = 1) :
    IntertwineAsLines.joinStroke walk loop s stroke =
      { calls := [stamp (Stroke.idx stroke 0)]
        state := some { s with m_lastPointPrinted := stroke } } := by
  unfold IntertwineAsLines.joinStroke
  rw [if_neg (by omega), if_pos h1]
  rfl

theorem asLines_join_none (walk : Int → Int → Int → Int → List Point) (loop : ToolLoop)
    (s : AsLinesState) (stroke : Stroke) (h0 : stroke.length = 0) :
    IntertwineAsLines.joinStroke walk loop s stroke = { calls := [], state := some s } := by
  unfold IntertwineAsLines.joinStroke
  rw [if_pos h0]

theorem stroke_eq_tap (stroke : Stroke) (h2 : stroke.length = 2)
    (heq : Stroke.idx stroke 0 = Stroke.idx stroke 1) :
    stroke = [Stroke.idx stroke 0, Stroke.idx stroke 0] := by
  match stroke, h2 with
  | [a, b], _ =>
    have hb : b = a := heq.symm
    subst hb
    rfl

theorem closedShape_eq (loop : ToolLoop) (stroke : Stroke) :
    IntertwineAsLines.closedShape loop stroke =
      if loop.filled = true ∧ loop.isFreehand = false then [closingLine stroke] else [] := by
  unfold IntertwineAsLines.closedShape closingLine
  cases loop.filled <;> cases loop.isFreehand <;> simp

theorem feedPoints_ne_nil_of_buffer (pts : List Point) (B : Stroke) (h : B ≠ []) :
    feedPoints pts B ≠ [] := by
  obtain ⟨e, he⟩ := feedPoints_extends pts B
  rw [he]
  simp [h]

theorem feedPoints_ne_nil_of_points (pts : List Point) (B : Stroke) (h : pts ≠ []) :
    feedPoints pts B ≠ [] := by
  cases pts with
  | nil => exact absurd rfl h
  | cons p pts =>
    have hstep : feedPoints (p :: pts) B =
        feedPoints pts (addPointsWithoutDuplicatingLastOne p.x p.y B) := rfl
    rw [hstep]
    apply feedPoints_ne_nil_of_buffer
    rw [addPoints_eq]
    split
    · rename_i hc
      exact hc.1
    · simp

theorem foldl_lineInto_ne_nil (walk : Int → Int → Int → Int → List Point)
    (l : List (Point × Point)) (B : Stroke) (h : B ≠ []) :
    l.foldl (fun b pq => lineInto walk pq.1.x pq.1.y pq.2.x pq.2.y b) B ≠ [] := by
  induction l generalizing B with
  | nil => exact h
  | cons pq l ih => exact ih _ (feedPoints_ne_nil_of_buffer _ B h)

/-- With a line walk that emits at least one point per segment, the buffer after
the walks of a stroke of at least two points is not empty. -/
theorem joinSegments_ne_nil (walk : Int → Int → Int → Int → List Point)
    (hwalk : ∀ x0 y0 x1 y1, walk x0 y0 x1 y1 ≠ []) (stroke : Stroke) (B : Stroke)
    (hlen : 2 ≤ stroke.length) : joinSegments walk stroke B 0 ≠ [] := by
  rw [joinSegments_eq walk stroke _ 0 B rfl, pairs_step stroke 0 (by omega), List.foldl_cons]
  exact foldl_lineInto_ne_nil walk _ _ (feedPoints_ne_nil_of_points _ B (hwalk _ _ _ _))

/-- A call of IntertwineAsLines::joinStroke that runs to its end leaves a
non-empty cache non-empty. -/
theorem asLines_join_cache_stays (walk : Int → Int → Int → Int → List Point) (loop : ToolLoop)
    (s s1 : AsLinesState) (stroke : Stroke) (hcache : s.m_lastPointPrinted ≠ [])
    (hrun : (IntertwineAsLines.joinStroke walk loop s stroke).state = some s1) :
    s1.m_lastPointPrinted ≠ [] := by
  by_cases h0 : stroke.length = 0
  · rw [asLines_join_none walk loop s stroke h0] at hrun
    cases hrun
    exact hcache
  · by_cases h1 : stroke.length = 1
    · rw [asLines_join_single walk loop s stroke h1] at hrun
      cases hrun
      intro h
      have h' : stroke = [] := h
      subst h'
      cases h1
    · by_cases htap : stroke.length = 2 ∧ Stroke.idx stroke 0 = Stroke.idx stroke 1
      · rw [stroke_eq_tap stroke htap.1 htap.2, asLines_join_tap] at hrun
        split at hrun
        · cases hrun
          simp
        · cases hrun
          exact hcache
      · rw [asLines_join_multi walk loop s stroke (by omega) htap] at hrun
        split at hrun
        · cases hrun
        · cases hrun
          intro h
          rw [List.set_eq_nil_iff] at h
          exact hcache h

/-- With a line walk that emits at least one point per segment, a call of
IntertwineAsLines::joinStroke on a non-empty cache runs to its end. -/
theorem asLines_join_completes (walk : Int → Int → Int → Int → List Point)
    (hwalk : ∀ x0 y0 x1 y1, walk x0 y0 x1 y1 ≠ []) (loop : ToolLoop)
    (s : AsLinesState) (stroke : Stroke) (hcache : s.m_lastPointPrinted ≠ []) :
    ∃ s1, (IntertwineAsLines.joinStroke walk loop s stroke).state = some s1 ∧
      s1.m_lastPointPrinted ≠ [] := by
  have hsome : ∃ s1, (IntertwineAsLines.joinStroke walk loop s stroke).state = some s1 := by
    by_cases h0 : stroke.length = 0
    · rw [asLines_join_none walk loop s stroke h0]
      exact ⟨_, rfl⟩
    · by_cases h1 : stroke.length = 1
      · rw [asLines_join_single walk loop s stroke h1]
        exact ⟨_, rfl⟩
      · by_cases htap : stroke.length = 2 ∧ Stroke.idx stroke 0 = Stroke.idx stroke 1
        · rw [stroke_eq_tap stroke htap.1 htap.2, asLines_join_tap]
          split <;> exact ⟨_, rfl⟩
        · rw [asLines_join_multi walk loop s stroke (by omega) htap]
          have hbuf := joinSegments_ne_nil walk hwalk stroke s.m_pts (by omega)
          rw [if_neg]
          · exact ⟨_, rfl⟩
          · rintro (h | h)
            · exact hcache (by simpa using h)
            · exact hbuf (by simpa using h)
  obtain ⟨s1, h⟩ := hsome
  exact ⟨s1, h, asLines_join_cache_stays walk loop s s1 stroke hcache h⟩

/-- IntertwineAsLines::fillStroke in terms of the outcome of the contour call. -/
theorem asLines_fill_eq (walk : Int → Int → Int → Int → List Point) (loop : ToolLoop)
    (s : AsLinesState) (stroke : Stroke) :
    IntertwineAsLines.fillStroke walk loop s stroke =
      if stroke.length < 3 then IntertwineAsLines.joinStroke walk loop s stroke
      else if loop.imageBrush = true then { calls := [Call.polygon stroke], state := some s }
      else match (IntertwineAsLines.joinStroke walk loop s stroke).state with
        | none => IntertwineAsLines.joinStroke walk loop s stroke
        | some s1 =>
          { calls := (IntertwineAsLines.joinStroke walk loop s stroke).calls ++
              [Call.polygon stroke]
            state := some s1 } := by
  unfold IntertwineAsLines.fillStroke
  split
  · rfl
  · cases hb : loop.imageBrush
    · simp
    · simp

theorem asLines_fill_completes (walk : Int → Int → Int → Int → List Point)
    (hwalk : ∀ x0 y0 x1 y1, walk x0 y0 x1 y1 ≠ []) (loop : ToolLoop)
    (s : AsLinesState) (stroke : Stroke) (hcache : s.m_lastPointPrinted ≠ []) :
    ∃ s1, (IntertwineAsLines.fillStroke walk loop s stroke).state = some s1 ∧
      s1.m_lastPointPrinted ≠ [] := by
  obtain ⟨s1, hj, hc⟩ := asLines_join_completes walk hwalk loop s stroke hcache
  rw [asLines_fill_eq]
  split
  · exact ⟨s1, hj, hc⟩
  · split
    · exact ⟨s, rfl, hcache⟩
    · rw [hj]
      exact ⟨s1, rfl, hc⟩

theorem asLines_session_completes (walk : Int → Int → Int → Int → List Point)
    (hwalk : ∀ x0 y0 x1 y1, walk x0 y0 x1 y1 ≠ []) (calls : List StrategyCall)
    (s : AsLinesState) (hcache : s.m_lastPointPrinted ≠ []) :
    ∃ s2, IntertwineAsLines.session walk s calls = some s2 ∧ s2.m_lastPointPrinted ≠ [] := by
  induction calls generalizing s with
  | nil => exact ⟨s, rfl, hcache⟩
  | cons c cs ih =>
    have hstep : ∃ s1, (IntertwineAsLines.call walk s c).state = some s1 ∧
        s1.m_lastPointPrinted ≠ [] := by
      cases c with
      | joinStroke loop stroke => exact asLines_join_completes walk hwalk loop s stroke hcache
      | fillStroke loop stroke => exact asLines_fill_completes walk hwalk loop s stroke hcache
    obtain ⟨s1, h1, hc1⟩ := hstep
    obtain ⟨s2, h2, hc2⟩ := ih s1 hc1
    refine ⟨s2, ?_, hc2⟩
    unfold IntertwineAsLines.session
    rw [h1]
    exact h2


theorem sampleLineWalk_ne_nil (x0 y0 x1 y1 : Int) : sampleLineWalk x0 y0 x1 y1 ≠ [] := by
  unfold sampleLineWalk
  simp [List.range_succ]

theorem asLines_tap_completes (walk : Int → Int → Int → Int → List Point) (loop : ToolLoop)
    (s : AsLinesState) (p : Point) :
    ∃ s1, (IntertwineAsLines.joinStroke walk loop s [p, p]).state = some s1 ∧
      s1.m_lastPointPrinted ≠ [] := by
  rw [asLines_join_tap]
  split
  · exact ⟨_, rfl, by simp⟩
  · rename_i h
    refine ⟨_, rfl, ?_⟩
    intro hc
    exact h (Or.inl hc)

/-- C18: with a line walk that emits at least one point per segment, a
joinStroke or fillStroke of IntertwineAsLines on a non-empty cache runs to its
end (ASSERT(!m_lastPointPrinted.empty()) holds, the write to
m_lastPointPrinted[0] and the read of m_pts[m_pts.size()-1] are in bounds: the
buffer after the walks of a stroke of at least two points is not empty) and
leaves the cache non-empty.  Hence every call of a session whose first call is a
joinStroke on a one-point stroke, or on a tap, runs to its end. -/
theorem c18_cache_stays_nonempty (walk : Int → Int → Int → Int → List Point)
    (hwalk : ∀ x0 y0 x1 y1, walk x0 y0 x1 y1 ≠ [])
    (loop loop0 : ToolLoop) (s s0 : AsLinesState) (stroke : Stroke) (p : Point)
    (calls : List StrategyCall) (hcache : s.m_lastPointPrinted ≠ []) :
    (∃ s1, (IntertwineAsLines.joinStroke walk loop s stroke).state = some s1 ∧
      s1.m_lastPointPrinted ≠ []) ∧
    (∃ s1, (IntertwineAsLines.fillStroke walk loop s stroke).state = some s1 ∧
      s1.m_lastPointPrinted ≠ []) ∧
    (2 ≤ stroke.length → joinSegments walk stroke s.m_pts 0 ≠ []) ∧
    (∃ s2, IntertwineAsLines.session walk s0 (StrategyCall.joinStroke loop0 [p] :: calls) =
      some s2 ∧ s2.m_lastPointPrinted ≠ []) ∧
    (∃ s2, IntertwineAsLines.session walk s0 (StrategyCall.joinStroke loop0 [p, p] :: calls) =
      some s2 ∧ s2.m_lastPointPrinted ≠ []) := by
  refine ⟨asLines_join_completes walk hwalk loop s stroke hcache,
    asLines_fill_completes walk hwalk loop s stroke hcache,
    joinSegments_ne_nil walk hwalk stroke s.m_pts, ?_, ?_⟩
  · have h1 := asLines_join_single walk loop0 s0 [p] rfl
    obtain ⟨s2, h2, hc2⟩ := asLines_session_completes walk hwalk calls
      { s0 with m_lastPointPrinted := [p] } (by simp)
    refine ⟨s2, ?_, hc2⟩
    have hcall : IntertwineAsLines.call walk s0 (StrategyCall.joinStroke loop0 [p]) =
        IntertwineAsLines.joinStroke walk loop0 s0 [p] := rfl
    rw [IntertwineAsLines.session, hcall, h1]
    exact h2
  · obtain ⟨s1, h1, hc1⟩ := asLines_tap_completes walk loop0 s0 p
    obtain ⟨s2, h2, hc2⟩ := asLines_session_completes walk hwalk calls s1 hc1
    refine ⟨s2, ?_, hc2⟩
    have hcall : IntertwineAsLines.call walk s0 (StrategyCall.joinStroke loop0 [p, p]) =
        IntertwineAsLines.joinStroke walk loop0 s0 [p, p] := rfl
    rw [IntertwineAsLines.session, hcall, h1]
    exact h2

theorem c18_session_example :
    ∃ s2, IntertwineAsLines.session sampleLineWalk AsLinesState.init
      [StrategyCall.joinStroke freehandLoop [⟨0, 0⟩],
        StrategyCall.joinStroke freehandLoop [⟨0, 0⟩, ⟨5, 0⟩],
        StrategyCall.fillStroke shapeLoop [⟨0, 0⟩, ⟨5, 0⟩, ⟨5, 5⟩]] = some s2 ∧
      s2.m_lastPointPrinted ≠ [] :=
  (c18_cache_stays_nonempty sampleLineWalk sampleLineWalk_ne_nil freehandLoop freehandLoop
    { m_lastPointPrinted := [⟨0, 0⟩], m_pts := [] } AsLinesState.init [] ⟨0, 0⟩
    [StrategyCall.joinStroke freehandLoop [⟨0, 0⟩, ⟨5, 0⟩],
      StrategyCall.fillStroke shapeLoop [⟨0, 0⟩, ⟨5, 0⟩, ⟨5, 5⟩]] (by simp)).2.2.2.1

/-! ## IntertwineAsLines: reset -/

theorem asLines_fill_m_pts_stays_empty (walk : Int → Int → Int → Int → List Point)
    (loop : ToolLoop) (s s1 : AsLinesState) (stroke : Stroke) (hpts : s.m_pts = [])
    (hrun : (IntertwineAsLines.fillStroke walk loop s stroke).state = some s1) :
    s1.m_pts = [] := by
  rw [asLines_fill_eq] at hrun
  split at hrun
  · exact asLines_m_pts_stays_empty walk loop s s1 stroke hpts hrun
  · split at hrun
    · cases hrun
      exact hpts
    · cases hj : (IntertwineAsLines.joinStroke walk loop s stroke).state with
      | none =>
        rw [hj] at hrun
        dsimp only at hrun
        rw [hj] at hrun
        cases hrun
      | some s2 =>
        rw [hj] at hrun
        have he : s2 = s1 := by simpa using hrun
        rw [← he]
        exact asLines_m_pts_stays_empty walk loop s s2 stroke hpts hj

theorem asLines_session_m_pts_stays_empty (walk : Int → Int → Int → Int → List Point)
    (calls : List StrategyCall) (s s1 : AsLinesState) (hpts : s.m_pts = [])
    (hrun : IntertwineAsLines.session walk s calls = some s1) : s1.m_pts = [] := by
  induction calls generalizing s with
  | nil =>
    cases hrun
    exact hpts
  | cons c cs ih =>
    unfold IntertwineAsLines.session at hrun
    cases hc : (IntertwineAsLines.call walk s c).state with
    | none =>
      rw [hc] at hrun
      cases hrun
    | some s2 =>
      rw [hc] at hrun
      refine ih s2 ?_ hrun
      cases c with
      | joinStroke loop stroke => exact asLines_m_pts_stays_empty walk loop s s2 stroke hpts hc
      | fillStroke loop stroke =>
        exact asLines_fill_m_pts_stays_empty walk loop s s2 stroke hpts hc

/-- C12, the claim as stated fails: IntertwineAsLines inherits the reset that
does nothing, so after a session whose last stamp was (3,3) the cache still
holds (3,3) after reset, and a tap on (3,3) under trace policy Accumulate is not
stamped. -/
theorem c12_reset_keeps_last_emitted_point :
    (IntertwineAsLines.joinStroke sampleLineWalk freehandLoop AsLinesState.init
      [⟨3, 3⟩]).state = some { m_lastPointPrinted := [⟨3, 3⟩], m_pts := [] } ∧
    (IntertwineAsLines.prepareIntertwine
      { m_lastPointPrinted := [⟨3, 3⟩], m_pts := [] }).m_lastPointPrinted = [⟨3, 3⟩] ∧
    freehandLoop.tracePolicy = TracePolicy.Accumulate ∧
    (IntertwineAsLines.joinStroke sampleLineWalk freehandLoop
      (IntertwineAsLines.prepareIntertwine { m_lastPointPrinted := [⟨3, 3⟩], m_pts := [] })
      [⟨3, 3⟩, ⟨3, 3⟩]).calls = [] := by
  refine ⟨rfl, rfl, rfl, ?_⟩
  rw [asLines_join_tap]
  decide

/-- C12, amended: for IntertwineAsLines the reset operation is the inherited one
and changes nothing: the last-emitted cache after reset is the cache before it.
The scratch buffer m_pts is empty after reset because every call of a session
that ran to its end left it empty.  A tap [p, p] issued after reset is therefore
stamped exactly when the cache is empty, or its first point differs from p, or
the trace policy is Last; when the cache left by the previous session is not
empty, its first point is p and the policy is Accumulate, the tap is not
stamped. -/
theorem c12_asLines_reset_changes_nothing (walk : Int → Int → Int → Int → List Point)
    (loop : ToolLoop) (s : AsLinesState) (p : Point) (calls : List StrategyCall) :
    IntertwineAsLines.prepareIntertwine s = s ∧
    (∀ s1, IntertwineAsLines.session walk AsLinesState.init calls = some s1 →
      (IntertwineAsLines.prepareIntertwine s1).m_pts = []) ∧
    ((IntertwineAsLines.joinStroke walk loop (IntertwineAsLines.prepareIntertwine s)
      [p, p]).calls.filter Call.isPoint =
      if s.m_lastPointPrinted = [] ∨ Stroke.idx s.m_lastPointPrinted 0 ≠ p ∨
          loop.tracePolicy = TracePolicy.Last then [stamp p] else []) ∧
    (s.m_lastPointPrinted ≠ [] → Stroke.idx s.m_lastPointPrinted 0 = p →
      loop.tracePolicy = TracePolicy.Accumulate →
      (IntertwineAsLines.joinStroke walk loop (IntertwineAsLines.prepareIntertwine s)
        [p, p]).calls.filter Call.isPoint = [] ∧
      (IntertwineAsLines.joinStroke walk loop (IntertwineAsLines.prepareIntertwine s)
        [p, p]).state = some { s with m_pts := [] }) := by
  have hp : IntertwineAsLines.prepareIntertwine s = s := rfl
  refine ⟨rfl, ?_, ?_, ?_⟩
  · intro s1 h
    exact asLines_session_m_pts_stays_empty walk calls AsLinesState.init s1 rfl h
  · rw [hp, asLines_join_tap]
    split
    · simp [stamp, Call.isPoint]
    · split <;> simp [Call.isPoint]
  · intro hne hidx hpol
    have hcond : ¬ (s.m_lastPointPrinted = [] ∨ Stroke.idx s.m_lastPointPrinted 0 ≠ p ∨
        loop.tracePolicy = TracePolicy.Last) := by
      rintro (h | h | h)
      · exact hne h
      · exact h hidx
      · rw [hpol] at h
        cases h
    rw [hp, asLines_join_tap, if_neg hcond]
    refine ⟨?_, rfl⟩
    dsimp only
    split <;> simp [Call.isPoint]

theorem c12_tap_after_reset_example :
    (IntertwineAsLines.joinStroke sampleLineWalk freehandLoop
      (IntertwineAsLines.prepareIntertwine { m_lastPointPrinted := [⟨7, 7⟩], m_pts := [] })
      [⟨7, 7⟩, ⟨7, 7⟩]).calls.filter Call.isPoint = [] ∧
    (IntertwineAsLines.joinStroke sampleLineWalk freehandLoop
      (IntertwineAsLines.prepareIntertwine { m_lastPointPrinted := [⟨7, 7⟩], m_pts := [] })
      [⟨3, 3⟩, ⟨3, 3⟩]).calls.filter Call.isPoint = [stamp ⟨3, 3⟩] :=
  ⟨((c12_asLines_reset_changes_nothing sampleLineWalk freehandLoop
      { m_lastPointPrinted := [⟨7, 7⟩], m_pts := [] } ⟨7, 7⟩ []).2.2.2
      (by simp) rfl rfl).1,
    (c12_asLines_reset_changes_nothing sampleLineWalk freehandLoop
      { m_lastPointPrinted := [⟨7, 7⟩], m_pts := [] } ⟨3, 3⟩ []).2.2.1.trans (by decide)⟩

/-! ## fillStroke of IntertwineAsLines and IntertwineAsPixelPerfect -/

theorem map_stamp_all_isPoint (pts : List Point) (c : Call) (hc : c ∈ pts.map stamp) :
    c.isPoint = true := by
  rw [List.mem_map] at hc
  obtain ⟨p, _, rfl⟩ := hc
  rfl

theorem filter_isLine_map_stamp (pts : List Point) :
    (pts.map stamp).filter Call.isLine = [] := by
  rw [List.filter_eq_nil_iff]
  intro c hc
  rw [List.mem_map] at hc
  obtain ⟨p, _, rfl⟩ := hc
  simp [stamp, Call.isLine]

theorem closedShape_sinks (loop : ToolLoop) (stroke : Stroke) (c : Call)
    (hc : c ∈ IntertwineAsLines.closedShape loop stroke) : c.isLine = true := by
  rw [closedShape_eq] at hc
  split at hc
  · rw [List.mem_singleton] at hc
    rw [hc]
    rfl
  · cases hc

/-- Every call of IntertwineAsLines::joinStroke is a point stamp or a line stamp. -/
theorem asLines_join_sinks (walk : Int → Int → Int → Int → List Point) (loop : ToolLoop)
    (s : AsLinesState) (stroke : Stroke) (c : Call)
    (hc : c ∈ (IntertwineAsLines.joinStroke walk loop s stroke).calls) :
    c.isPoint = true ∨ c.isLine = true := by
  by_cases h0 : stroke.length = 0
  · rw [asLines_join_none walk loop s stroke h0] at hc
    cases hc
  · by_cases h1 : stroke.length = 1
    · rw [asLines_join_single walk loop s stroke h1, List.mem_singleton] at hc
      rw [hc]
      exact Or.inl rfl
    · by_cases htap : stroke.length = 2 ∧ Stroke.idx stroke 0 = Stroke.idx stroke 1
      · rw [stroke_eq_tap stroke htap.1 htap.2, asLines_join_tap] at hc
        split at hc
        · rw [List.mem_singleton] at hc
          rw [hc]
          exact Or.inl rfl
        · dsimp only at hc
          split at hc
          · rw [List.mem_singleton] at hc
            rw [hc]
            exact Or.inr rfl
          · cases hc
      · rw [asLines_join_multi walk loop s stroke (by omega) htap] at hc
        split at hc
        · exact Or.inl (map_stamp_all_isPoint _ c hc)
        · rcases List.mem_append.mp hc with h | h
          · exact Or.inl (map_stamp_all_isPoint _ c h)
          · exact Or.inr (closedShape_sinks loop stroke c h)

/-- Every call of IntertwineAsPixelPerfect::joinStroke is a point stamp. -/
theorem pixelPerfect_join_sinks (walk : Int → Int → Int → Int → List Point) (loop : ToolLoop)
    (t : PixelPerfectState) (stroke : Stroke) (c : Call)
    (hc : c ∈ (IntertwineAsPixelPerfect.joinStroke walk loop t stroke).calls) :
    c.isPoint = true := by
  have hwalk : ∀ (flag : Bool) (m : Stroke),
      c ∈ IntertwineAsPixelPerfect.stampLoop flag m 0 → c.isPoint = true := by
    intro flag m hm
    rw [stampLoop_eq_stamped, List.mem_map] at hm
    obtain ⟨i, _, rfl⟩ := hm
    rfl
  cases hpol : loop.tracePolicy
  · rw [pixelPerfect_join_accumulate walk loop t stroke hpol] at hc
    split at hc
    · cases hc
    · split at hc
      · rw [List.mem_singleton] at hc
        rw [hc]
        rfl
      · exact hwalk _ _ hc
  · rw [pixelPerfect_join_last walk loop t stroke hpol] at hc
    split at hc
    · cases hc
    · split at hc
      · rw [List.mem_singleton] at hc
        rw [hc]
        rfl
      · exact hwalk _ _ hc

/-- C14: for a stroke of at least three points the calls of fillStroke are the
calls of joinStroke on the same stroke and state (none with an image brush)
followed by the polygon fill over the points of the stroke, and with an image
brush the retained state is unchanged: for IntertwineAsPixelPerfect always, and
for IntertwineAsLines whenever the contour call, if made, passes its consistency
check, that is with a line walk that emits at least one point per segment and a
non-empty last-emitted cache, or with an image brush; fillStroke then runs to
its end.  For a stroke of fewer than three points fillStroke is joinStroke, and
no call of joinStroke is a polygon fill: its calls are point and line stamps. -/
theorem c14_fill_is_contour_then_polygon (walk : Int → Int → Int → Int → List Point)
    (loop : ToolLoop) (s : AsLinesState) (t : PixelPerfectState) (stroke : Stroke) (c : Call) :
    (3 ≤ stroke.length →
      (IntertwineAsPixelPerfect.fillStroke walk loop t stroke).calls =
        (if loop.imageBrush = true then []
          else (IntertwineAsPixelPerfect.joinStroke walk loop t stroke).calls) ++
          [Call.polygon stroke] ∧
      (IntertwineAsPixelPerfect.fillStroke walk loop t stroke).state =
        (if loop.imageBrush = true then t
          else (IntertwineAsPixelPerfect.joinStroke walk loop t stroke).state)) ∧
    (3 ≤ stroke.length → (∀ x0 y0 x1 y1, walk x0 y0 x1 y1 ≠ []) →
      (s.m_lastPointPrinted ≠ [] ∨ loop.imageBrush = true) →
      (IntertwineAsLines.fillStroke walk loop s stroke).calls =
        (if loop.imageBrush = true then []
          else (IntertwineAsLines.joinStroke walk loop s stroke).calls) ++
          [Call.polygon stroke] ∧
      (IntertwineAsLines.fillStroke walk loop s stroke).state =
        (if loop.imageBrush = true then some s
          else (IntertwineAsLines.joinStroke walk loop s stroke).state) ∧
      (IntertwineAsLines.fillStroke walk loop s stroke).state ≠ none) ∧
    (stroke.length < 3 →
      IntertwineAsLines.fillStroke walk loop s stroke =
        IntertwineAsLines.joinStroke walk loop s stroke ∧
      IntertwineAsPixelPerfect.fillStroke walk loop t stroke =
        IntertwineAsPixelPerfect.joinStroke walk loop t stroke) ∧
    (Call.polygon stroke ∉ (IntertwineAsLines.joinStroke walk loop s stroke).calls ∧
      Call.polygon stroke ∉ (IntertwineAsPixelPerfect.joinStroke walk loop t stroke).calls) ∧
    (c ∈ (IntertwineAsLines.joinStroke walk loop s stroke).calls →
      c.isPoint = true ∨ c.isLine = true) ∧
    (c ∈ (IntertwineAsPixelPerfect.joinStroke walk loop t stroke).calls →
      c.isPoint = true) := by
  refine ⟨?_, ?_, ?_, ⟨?_, ?_⟩, asLines_join_sinks walk loop s stroke c,
    pixelPerfect_join_sinks walk loop t stroke c⟩
  · intro h
    unfold IntertwineAsPixelPerfect.fillStroke
    rw [if_neg (by omega)]
    cases loop.imageBrush <;> simp
  · intro h hwalk hcache
    rw [asLines_fill_eq, if_neg (by omega)]
    cases hb : loop.imageBrush
    · have hne : s.m_lastPointPrinted ≠ [] := by
        rcases hcache with h1 | h1
        · exact h1
        · rw [hb] at h1
          cases h1
      obtain ⟨s1, hj, _⟩ := asLines_join_completes walk hwalk loop s stroke hne
      rw [if_neg (by simp), hj]
      simp
    · rw [if_pos rfl]
      simp
  · intro h
    constructor
    · rw [asLines_fill_eq, if_pos h]
    · unfold IntertwineAsPixelPerfect.fillStroke
      rw [if_pos h]
  · intro hmem
    rcases asLines_join_sinks walk loop s stroke _ hmem with h | h <;> cases h
  · intro hmem
    cases pixelPerfect_join_sinks walk loop t stroke _ hmem

theorem c14_fill_after_first_point_example :
    (IntertwineAsLines.fillStroke sampleLineWalk shapeLoop
      { m_lastPointPrinted := [⟨0, 0⟩], m_pts := [] } [⟨0, 0⟩, ⟨2, 0⟩, ⟨2, 2⟩]).calls =
      [stamp ⟨0, 0⟩, stamp ⟨1, 0⟩, stamp ⟨2, 0⟩, stamp ⟨2, 1⟩, stamp ⟨2, 2⟩,
        Call.doPointshapeLine 0 0 2 2, Call.polygon [⟨0, 0⟩, ⟨2, 0⟩, ⟨2, 2⟩]] := by
  have hne : ¬ (({ m_lastPointPrinted := [⟨0, 0⟩], m_pts := [] } :
      AsLinesState).m_lastPointPrinted.isEmpty = true ∨
      (joinSegments sampleLineWalk [⟨0, 0⟩, ⟨2, 0⟩, ⟨2, 2⟩]
        ({ m_lastPointPrinted := [⟨0, 0⟩], m_pts := [] } : AsLinesState).m_pts 0).isEmpty
        = true) := by
    rw [joinSegments_eq _ _ _ 0 _ rfl]
    decide
  have hj : IntertwineAsLines.joinStroke sampleLineWalk shapeLoop
      { m_lastPointPrinted := [⟨0, 0⟩], m_pts := [] } [⟨0, 0⟩, ⟨2, 0⟩, ⟨2, 2⟩] =
      { calls := [stamp ⟨0, 0⟩, stamp ⟨1, 0⟩, stamp ⟨2, 0⟩, stamp ⟨2, 1⟩, stamp ⟨2, 2⟩,
          Call.doPointshapeLine 0 0 2 2]
        state := some { m_lastPointPrinted := [⟨2, 2⟩], m_pts := [] } } := by
    rw [asLines_join_multi _ _ _ _ (by decide) (by decide), if_neg hne,
      joinSegments_eq _ _ _ 0 _ rfl]
    congr 1
  have h := ((c14_fill_is_contour_then_polygon sampleLineWalk shapeLoop
    { m_lastPointPrinted := [⟨0, 0⟩], m_pts := [] } PixelPerfectState.init
    [⟨0, 0⟩, ⟨2, 0⟩, ⟨2, 2⟩] (stamp ⟨0, 0⟩)).2.1 (by decide) sampleLineWalk_ne_nil
    (Or.inl (by simp))).1
  rw [h, hj]
  rfl

/-! ## IntertwineAsLines: the closing line -/

theorem tap_exists (stroke : Stroke) (h2 : stroke.length = 2)
    (heq : Stroke.idx stroke 0 = Stroke.idx stroke 1) : ∃ p, stroke = [p, p] :=
  ⟨Stroke.idx stroke 0, stroke_eq_tap stroke h2 heq⟩

/-- C15, the claim as stated fails: with the filled flag set and a controller
that is not freehand, the tap (0,0),(0,0) on a cache holding (1,1) is stamped and
joinStroke returns right after the point stamp: no closing line is emitted. -/
theorem c15_stamped_tap_has_no_closing_line :
    shapeLoop.filled = true ∧ shapeLoop.isFreehand = false ∧
    (IntertwineAsLines.joinStroke sampleLineWalk shapeLoop
      { m_lastPointPrinted := [⟨1, 1⟩], m_pts := [] } [⟨0, 0⟩, ⟨0, 0⟩]).calls =
      [stamp ⟨0, 0⟩] ∧
    closingLine [⟨0, 0⟩, ⟨0, 0⟩] ∉ (IntertwineAsLines.joinStroke sampleLineWalk shapeLoop
      { m_lastPointPrinted := [⟨1, 1⟩], m_pts := [] } [⟨0, 0⟩, ⟨0, 0⟩]).calls := by
  rw [asLines_join_tap]
  decide

/-- C15, amended: for a stroke of at least two points, when the filled flag is
not set or the controller is freehand IntertwineAsLines::joinStroke emits no
line stamp at all.  When the filled flag is set and the controller is not
freehand, a call that is not a stamped tap and runs to its end emits the closing
line from the first point of the stroke to its last as its final call, its only
line stamp; a stamped tap (two equal points, with the cache empty, or holding
another point, or under trace policy Last) emits its point stamp and nothing
else, and a call stopped at its consistency check emits no line stamp. -/
theorem c15_asLines_closing_line (walk : Int → Int → Int → Int → List Point)
    (loop : ToolLoop) (s : AsLinesState) (stroke : Stroke) (hlen : 2 ≤ stroke.length) :
    (¬ (loop.filled = true ∧ loop.isFreehand = false) →
      (IntertwineAsLines.joinStroke walk loop s stroke).calls.filter Call.isLine = []) ∧
    (loop.filled = true ∧ loop.isFreehand = false →
      ¬ IntertwineAsLines.stampedTap loop s stroke →
      (IntertwineAsLines.joinStroke walk loop s stroke).state ≠ none →
        (IntertwineAsLines.joinStroke walk loop s stroke).calls.getLast? =
          some (closingLine stroke) ∧
        (IntertwineAsLines.joinStroke walk loop s stroke).calls.filter Call.isLine =
          [closingLine stroke]) ∧
    (IntertwineAsLines.stampedTap loop s stroke →
      (IntertwineAsLines.joinStroke walk loop s stroke).calls = [stamp (Stroke.idx stroke 0)]) ∧
    ((IntertwineAsLines.joinStroke walk loop s stroke).state = none →
      (IntertwineAsLines.joinStroke walk loop s stroke).calls.filter Call.isLine = []) := by
  by_cases htap : stroke.length = 2 ∧ Stroke.idx stroke 0 = Stroke.idx stroke 1
  · obtain ⟨p, rfl⟩ := tap_exists stroke htap.1 htap.2
    have hidx : Stroke.idx [p, p] 0 = p := rfl
    have hline : closingLine [p, p] = Call.doPointshapeLine p.x p.y p.x p.y := rfl
    simp only [IntertwineAsLines.stampedTap, hidx, hline]
    rw [asLines_join_tap]
    by_cases hst : s.m_lastPointPrinted = [] ∨ Stroke.idx s.m_lastPointPrinted 0 ≠ p ∨
        loop.tracePolicy = TracePolicy.Last
    · rw [if_pos hst]
      refine ⟨?_, ?_, ?_, ?_⟩
      · intro _
        simp [stamp, Call.isLine]
      · intro _ hns
        exact absurd ⟨rfl, rfl, hst⟩ hns
      · intro _
        rfl
      · intro h
        cases h
    · rw [if_neg hst]
      refine ⟨?_, ?_, ?_, ?_⟩
      · intro hc
        simp [hc]
      · intro hc _ _
        simp [hc, Call.isLine]
      · intro h
        exact absurd h.2.2 hst
      · intro h
        cases h
  · have hns : ¬ IntertwineAsLines.stampedTap loop s stroke := fun h => htap ⟨h.1, h.2.1⟩
    rw [asLines_join_multi walk loop s stroke hlen htap, closedShape_eq]
    by_cases hab : s.m_lastPointPrinted.isEmpty = true ∨
        (joinSegments walk stroke s.m_pts 0).isEmpty = true
    · rw [if_pos hab]
      refine ⟨?_, ?_, ?_, ?_⟩
      · intro _
        exact filter_isLine_map_stamp _
      · intro _ _ h
        exact absurd rfl h
      · intro h
        exact absurd h hns
      · intro _
        exact filter_isLine_map_stamp _
    · rw [if_neg hab]
      refine ⟨?_, ?_, ?_, ?_⟩
      · intro hc
        simp only [hc, if_false, List.append_nil]
        exact filter_isLine_map_stamp _
      · intro hc _ _
        simp only [hc, and_self, if_true]
        constructor
        · simp
        · rw [List.filter_append, filter_isLine_map_stamp]
          simp [closingLine, Call.isLine]
      · intro h
        exact absurd h hns
      · intro h
        cases h

theorem c15_closing_line_example :
    (IntertwineAsLines.joinStroke sampleLineWalk shapeLoop
      { m_lastPointPrinted := [⟨0, 0⟩], m_pts := [] } [⟨0, 0⟩, ⟨2, 0⟩, ⟨2, 2⟩]).calls.getLast? =
      some (Call.doPointshapeLine 0 0 2 2) ∧
    (IntertwineAsLines.joinStroke sampleLineWalk freehandLoop
      { m_lastPointPrinted := [⟨0, 0⟩], m_pts := [] }
      [⟨0, 0⟩, ⟨2, 0⟩, ⟨2, 2⟩]).calls.filter Call.isLine = [] := by
  have hrun : (IntertwineAsLines.joinStroke sampleLineWalk shapeLoop
      { m_lastPointPrinted := [⟨0, 0⟩], m_pts := [] } [⟨0, 0⟩, ⟨2, 0⟩, ⟨2, 2⟩]).state ≠
      none := by
    obtain ⟨s1, h, _⟩ := asLines_join_completes sampleLineWalk sampleLineWalk_ne_nil shapeLoop
      { m_lastPointPrinted := [⟨0, 0⟩], m_pts := [] } [⟨0, 0⟩, ⟨2, 0⟩, ⟨2, 2⟩] (by simp)
    rw [h]
    simp
  exact ⟨((c15_asLines_closing_line sampleLineWalk shapeLoop
      { m_lastPointPrinted := [⟨0, 0⟩], m_pts := [] } [⟨0, 0⟩, ⟨2, 0⟩, ⟨2, 2⟩]
      (by decide)).2.1 ⟨rfl, rfl⟩ (by simp [IntertwineAsLines.stampedTap]) hrun).1,
    (c15_asLines_closing_line sampleLineWalk freehandLoop
      { m_lastPointPrinted := [⟨0, 0⟩], m_pts := [] } [⟨0, 0⟩, ⟨2, 0⟩, ⟨2, 2⟩]
      (by decide)).1 (by decide)⟩


/-! ## IntertwineAsRectangles: getStrokeBounds against joinStroke -/

theorem rectangles_join_outline (rotateRectangle : Int → Int → Int → Int → Stroke)
    (loop : ToolLoop) (stroke : Stroke)
    (hangle : loop.shapeAngle = ShapeAngle.below) (hlen : 2 ≤ stroke.length) :
    IntertwineAsRectangles.joinStroke rotateRectangle loop stroke =
      (consecutivePairs stroke).flatMap (fun pq =>
        rectOutline (min pq.1.x pq.2.x) (min pq.1.y pq.2.y)
          (max pq.1.x pq.2.x) (max pq.1.y pq.2.y)) := by
  unfold IntertwineAsRectangles.joinStroke
  rw [if_neg (by omega), if_neg (by omega), if_pos (by omega)]
  simp only [hangle, ShapeAngle.absLt, if_true, sortPair_eq, forRows_outline]
  rw [forPairs_stroke stroke (fun p q =>
    rectOutline (min p.x q.x) (min p.y q.y) (max p.x q.x) (max p.y q.y)) _ 0 rfl,
    consecutivePairs_eq]

theorem contains_of_between (r : Rect) (a b p : Point) (ha : r.contains a) (hb : r.contains b)
    (hx1 : min a.x b.x ≤ p.x) (hx2 : p.x ≤ max a.x b.x)
    (hy1 : min a.y b.y ≤ p.y) (hy2 : p.y ≤ max a.y b.y) : r.contains p := by
  unfold Rect.contains at *
  omega

theorem rectOutline_coords (x1 y1 x2 y2 : Int) (hy : y1 ≤ y2) (c : Call) (p : Point)
    (hc : c ∈ rectOutline x1 y1 x2 y2) (hp : p ∈ c.coords) :
    (p.x = x1 ∨ p.x = x2) ∧ y1 ≤ p.y ∧ p.y ≤ y2 := by
  unfold rectOutline at hc
  rcases List.mem_append.mp hc with h | h
  · simp only [List.mem_cons, List.mem_singleton, List.mem_nil_iff, or_false] at h
    rcases h with rfl | rfl
    · simp only [Call.coords, List.mem_cons, List.mem_singleton, List.mem_nil_iff,
        or_false] at hp
      rcases hp with rfl | rfl
      · exact ⟨Or.inl rfl, le_refl _, hy⟩
      · exact ⟨Or.inr rfl, le_refl _, hy⟩
    · simp only [Call.coords, List.mem_cons, List.mem_singleton, List.mem_nil_iff,
        or_false] at hp
      rcases hp with rfl | rfl
      · exact ⟨Or.inl rfl, hy, le_refl _⟩
      · exact ⟨Or.inr rfl, hy, le_refl _⟩
  · rw [List.mem_flatMap] at h
    obtain ⟨i, hi, hci⟩ := h
    rw [List.mem_range] at hi
    simp only [List.mem_cons, List.mem_singleton, List.mem_nil_iff, or_false] at hci
    rcases hci with rfl | rfl
    · simp only [Call.coords, List.mem_singleton] at hp
      subst hp
      exact ⟨Or.inl rfl, by simp only []; omega, by simp only []; omega⟩
    · simp only [Call.coords, List.mem_singleton] at hp
      subst hp
      exact ⟨Or.inr rfl, by simp only []; omega, by simp only []; omega⟩

theorem mem_of_mem_consecutivePairs (stroke : Stroke) (pq : Point × Point)
    (h : pq ∈ consecutivePairs stroke) : pq.1 ∈ stroke ∧ pq.2 ∈ stroke := by
  unfold consecutivePairs at h
  obtain ⟨a, b⟩ := pq
  have h2 := List.of_mem_zip h
  exact ⟨h2.1, List.mem_of_mem_tail h2.2⟩

theorem foldl_min_le (f : Point → Int) (ps : List Point) (a : Int) :
    ps.foldl (fun m q => min m (f q)) a ≤ a ∧
      ∀ q ∈ ps, ps.foldl (fun m q => min m (f q)) a ≤ f q := by
  induction ps generalizing a with
  | nil => exact ⟨le_refl _, fun q hq => by cases hq⟩
  | cons p ps ih =>
    obtain ⟨h1, h2⟩ := ih (min a (f p))
    refine ⟨le_trans h1 (min_le_left _ _), ?_⟩
    intro q hq
    rcases List.mem_cons.mp hq with rfl | hq
    · exact le_trans h1 (min_le_right _ _)
    · exact h2 q hq

theorem le_foldl_max (f : Point → Int) (ps : List Point) (a : Int) :
    a ≤ ps.foldl (fun m q => max m (f q)) a ∧
      ∀ q ∈ ps, f q ≤ ps.foldl (fun m q => max m (f q)) a := by
  induction ps generalizing a with
  | nil => exact ⟨le_refl _, fun q hq => by cases hq⟩
  | cons p ps ih =>
    obtain ⟨h1, h2⟩ := ih (max a (f p))
    refine ⟨le_trans (le_max_left _ _) h1, ?_⟩
    intro q hq
    rcases List.mem_cons.mp hq with rfl | hq
    · exact le_trans (le_max_right _ _) h1
    · exact h2 q hq

/-- The bounding rectangle modelled from the specification holds every point of
its stroke. -/
theorem bounds_encloses (stroke : Stroke) (q : Point) (hq : q ∈ stroke) :
    (Stroke.bounds stroke).contains q := by
  cases stroke with
  | nil => cases hq
  | cons p ps =>
    have hx1 := foldl_min_le (fun r => r.x) ps p.x
    have hy1 := foldl_min_le (fun r => r.y) ps p.y
    have hx2 := le_foldl_max (fun r => r.x) ps p.x
    have hy2 := le_foldl_max (fun r => r.y) ps p.y
    unfold Stroke.bounds Rect.contains
    dsimp only
    rcases List.mem_cons.mp hq with rfl | hq
    · have a1 := hx1.1
      have a2 := hy1.1
      have a3 := hx2.1
      have a4 := hy2.1
      omega
    · have a1 := hx1.2 q hq
      have a2 := hy1.2 q hq
      have a3 := hx2.2 q hq
      have a4 := hy2.2 q hq
      omega

/-- When ABS(angle) < 0.001, or the stroke is empty, or the stroke has one point
and ABS(angle) > 0.001 is false, every coordinate
IntertwineAsRectangles::joinStroke hands to a sink lies inside the rectangle
getStrokeBounds returns, for any Stroke::bounds that encloses the points of the
stroke. -/
theorem rectangles_bounds_cover_join (bounds : Stroke → Rect) (union : Rect → Rect → Rect)
    (rotateRectangle : Int → Int → Int → Int → Stroke) (loop : ToolLoop) (stroke : Stroke)
    (henc : ∀ p ∈ stroke, (bounds stroke).contains p)
    (hcase : loop.shapeAngle = ShapeAngle.below ∨ stroke = [] ∨
      (stroke.length = 1 ∧ loop.shapeAngle ≠ ShapeAngle.above))
    (c : Call) (p : Point)
    (hc : c ∈ IntertwineAsRectangles.joinStroke rotateRectangle loop stroke)
    (hp : p ∈ c.coords) :
    (IntertwineAsRectangles.getStrokeBounds bounds union rotateRectangle loop
      stroke).contains p := by
  have hone : stroke.length = 1 →
      IntertwineAsRectangles.joinStroke rotateRectangle loop stroke =
        [stamp (Stroke.idx stroke 0)] := by
    intro h1
    unfold IntertwineAsRectangles.joinStroke
    rw [if_neg (by omega), if_pos h1]
    rfl
  have hidx0 : stroke.length = 1 → Stroke.idx stroke 0 ∈ stroke := by
    intro h1
    rw [idx_eq_getElem stroke 0 (by omega)]
    exact List.get_mem _ _ _
  have hnotabove : loop.shapeAngle ≠ ShapeAngle.above →
      IntertwineAsRectangles.getStrokeBounds bounds union rotateRectangle loop stroke =
        bounds stroke := by
    intro h
    unfold IntertwineAsRectangles.getStrokeBounds
    cases hsa : loop.shapeAngle
    · rfl
    · rfl
    · exact absurd hsa h
  have hsingle : stroke.length = 1 → loop.shapeAngle ≠ ShapeAngle.above →
      (IntertwineAsRectangles.getStrokeBounds bounds union rotateRectangle loop
        stroke).contains p := by
    intro h1 hna
    rw [hone h1, List.mem_singleton] at hc
    subst hc
    simp only [stamp, Call.coords, List.mem_singleton] at hp
    rw [hnotabove hna]
    have := henc _ (hidx0 h1)
    rw [hp]
    exact this
  rcases hcase with hbelow | hnil | ⟨h1, hna⟩
  · have hna : loop.shapeAngle ≠ ShapeAngle.above := by
      rw [hbelow]
      decide
    by_cases h0 : stroke.length = 0
    · unfold IntertwineAsRectangles.joinStroke at hc
      rw [if_pos h0] at hc
      cases hc
    · by_cases h1 : stroke.length = 1
      · exact hsingle h1 hna
      · rw [rectangles_join_outline rotateRectangle loop stroke hbelow (by omega),
          List.mem_flatMap] at hc
        obtain ⟨pq, hpq, hcq⟩ := hc
        obtain ⟨ha, hb⟩ := mem_of_mem_consecutivePairs stroke pq hpq
        have hle : min pq.1.y pq.2.y ≤ max pq.1.y pq.2.y :=
          le_trans (min_le_left _ _) (le_max_left _ _)
        obtain ⟨hx, hy1, hy2⟩ := rectOutline_coords _ _ _ _ hle c p hcq hp
        rw [hnotabove hna]
        refine contains_of_between _ pq.1 pq.2 p (henc _ ha) (henc _ hb) ?_ ?_ hy1 hy2
        · rcases hx with h | h
          · rw [h]
          · rw [h]
            exact le_trans (min_le_left _ _) (le_max_left _ _)
        · rcases hx with h | h
          · rw [h]
            exact le_trans (min_le_left _ _) (le_max_left _ _)
          · rw [h]
  · subst hnil
    cases hc
  · exact hsingle h1 hna

/-- C17, the claim as stated fails: for the one-point stroke (5,5) at an angle
with ABS(angle) > 0.001, joinStroke stamps the point (5,5), while
getStrokeBounds resets the bounds to the empty rectangle, skips its loop because
the stroke has fewer than two points, and returns (0,0,0,0), which does not hold
(5,5). -/
theorem c17_one_point_rotated_stroke_outside_bounds :
    rotatedLoop.shapeAngle.absGt = true ∧
    IntertwineAsRectangles.joinStroke rotateRectangleFlat rotatedLoop [⟨5, 5⟩] =
      [Call.doPointshapePoint 5 5] ∧
    IntertwineAsRectangles.getStrokeBounds Stroke.bounds Rect.union rotateRectangleFlat
      rotatedLoop [⟨5, 5⟩] = ⟨0, 0, 0, 0⟩ ∧
    ¬ (IntertwineAsRectangles.getStrokeBounds Stroke.bounds Rect.union rotateRectangleFlat
      rotatedLoop [⟨5, 5⟩]).contains ⟨5, 5⟩ ∧
    (Stroke.bounds [⟨5, 5⟩]).contains ⟨5, 5⟩ := by
  refine ⟨rfl, by decide, by decide, ?_, ?_⟩
  · have h : IntertwineAsRectangles.getStrokeBounds Stroke.bounds Rect.union
        rotateRectangleFlat rotatedLoop [⟨5, 5⟩] = ⟨0, 0, 0, 0⟩ := by decide
    rw [h]
    unfold Rect.contains
    decide
  · unfold Rect.contains
    decide

/-- C17, amended: for any Stroke::bounds that encloses the points of the stroke,
when ABS(angle) < 0.001, or the stroke is empty, or the stroke has one point and
ABS(angle) > 0.001 is false, every coordinate IntertwineAsRectangles::joinStroke
hands to a sink (each stamped point, both endpoints of each stamped line) lies
inside the rectangle getStrokeBounds returns for the same stroke and angle.
There getStrokeBounds returns the bounds of the stroke whenever ABS(angle) >
0.001 is false; for a stroke of fewer than two points at ABS(angle) > 0.001 it
returns the empty rectangle, the union over no consecutive pair. -/
theorem c17_bounds_cover_join_without_rotation (bounds : Stroke → Rect)
    (union : Rect → Rect → Rect) (rotateRectangle : Int → Int → Int → Int → Stroke)
    (loop : ToolLoop) (stroke : Stroke) (c : Call) (p : Point)
    (henc : ∀ q ∈ stroke, (bounds stroke).contains q) :
    ((loop.shapeAngle = ShapeAngle.below ∨ stroke = [] ∨
        (stroke.length = 1 ∧ loop.shapeAngle ≠ ShapeAngle.above)) →
      c ∈ IntertwineAsRectangles.joinStroke rotateRectangle loop stroke → p ∈ c.coords →
      (IntertwineAsRectangles.getStrokeBounds bounds union rotateRectangle loop
        stroke).contains p) ∧
    (loop.shapeAngle ≠ ShapeAngle.above →
      IntertwineAsRectangles.getStrokeBounds bounds union rotateRectangle loop stroke =
        bounds stroke) ∧
    (loop.shapeAngle = ShapeAngle.above → stroke.length < 2 →
      IntertwineAsRectangles.getStrokeBounds bounds union rotateRectangle loop stroke =
        ⟨0, 0, 0, 0⟩) := by
  refine ⟨?_, ?_, ?_⟩
  · intro hcase hc hp
    exact rectangles_bounds_cover_join bounds union rotateRectangle loop stroke henc hcase
      c p hc hp
  · intro h
    unfold IntertwineAsRectangles.getStrokeBounds
    cases hsa : loop.shapeAngle
    · rfl
    · rfl
    · exact absurd hsa h
  · intro h hlen
    unfold IntertwineAsRectangles.getStrokeBounds
    rw [h]
    simp only [ShapeAngle.absGt, if_true]
    rw [if_neg (by omega)]

theorem c17_square_example :
    (IntertwineAsRectangles.getStrokeBounds Stroke.bounds Rect.union rotateRectangleFlat
      shapeLoop [⟨0, 0⟩, ⟨3, 3⟩]).contains ⟨3, 2⟩ ∧
    IntertwineAsRectangles.getStrokeBounds Stroke.bounds Rect.union rotateRectangleFlat
      shapeLoop [⟨0, 0⟩, ⟨3, 3⟩] = ⟨0, 0, 4, 4⟩ ∧
    Call.doPointshapePoint 3 2 ∈
      IntertwineAsRectangles.joinStroke rotateRectangleFlat shapeLoop [⟨0, 0⟩, ⟨3, 3⟩] := by
  have hjoin : Call.doPointshapePoint 3 2 ∈
      IntertwineAsRectangles.joinStroke rotateRectangleFlat shapeLoop [⟨0, 0⟩, ⟨3, 3⟩] := by
    rw [rectangles_join_outline _ _ _ rfl (by decide)]
    decide
  have h := c17_bounds_cover_join_without_rotation Stroke.bounds Rect.union
    rotateRectangleFlat shapeLoop [⟨0, 0⟩, ⟨3, 3⟩] (Call.doPointshapePoint 3 2) ⟨3, 2⟩
    (bounds_encloses [⟨0, 0⟩, ⟨3, 3⟩])
  exact ⟨h.1 (Or.inl rfl) hjoin (by simp [Call.coords]),
    (h.2.1 (by decide)).trans (by decide), hjoin⟩

end app.tools
